import Mathlib

/-! Shallow embedding of the Harbor data-conversion programs `hgps.c` and
`hsensor.c`.  C `int` is modelled as `Int`, with C99 truncating division
and remainder (`Int.tdiv` / `Int.tmod`); C `float` is modelled by the
exact fraction type `Fl` below (exact arithmetic — every claim proved
about float-valued fields below is structural, about control flow and
field selection, not about rounding).
The libc `sscanf` calls, with the two concrete format strings appearing in
the programs, are modelled by an explicit scanner over `List Char`
following the C99 `fscanf` matching rules for the `%d` and `%f`
conversions restricted to decimal numerals (the hexadecimal, infinity and
NaN spellings accepted by some C libraries are outside the model; Harbor
data files contain only decimal fields), including the rule that an input
item is the longest input sequence that is a prefix of a matching
sequence, and that a non-matching item makes the directive fail. -/

/-- C99 integer division: truncation toward zero. -/
def cdiv (a b : Int) : Int := Int.tdiv a b

/-- C99 integer remainder, paired with `cdiv`. -/
def cmod (a b : Int) : Int := Int.tmod a b

/-- Exact rational model of C `float`: an unnormalized fraction.  The
programs never test floats for equality — they only add, negate, divide
and compare them — so field arithmetic is modelled exactly and
comparisons are defined by cross-multiplication (denominators produced by
the model are always positive).  Keeping fractions unnormalized makes
every operation structurally computable. -/
structure Fl where
  num : Int
  den : Nat
deriving DecidableEq, Repr

instance (n : Nat) : OfNat Fl n := ⟨⟨(n : Int), 1⟩⟩

instance : NatCast Fl := ⟨fun n => ⟨(n : Int), 1⟩⟩

instance : IntCast Fl := ⟨fun n => ⟨n, 1⟩⟩

instance : Neg Fl := ⟨fun a => ⟨-a.num, a.den⟩⟩

instance : Add Fl := ⟨fun a b => ⟨a.num * b.den + b.num * a.den, a.den * b.den⟩⟩

instance : Sub Fl := ⟨fun a b => a + -b⟩

instance : Mul Fl := ⟨fun a b => ⟨a.num * b.num, a.den * b.den⟩⟩

/-- Reciprocal (the programs only ever divide by a positive count). -/
def Fl.inv (a : Fl) : Fl :=
  if 0 ≤ a.num then ⟨(a.den : Int), a.num.toNat⟩ else ⟨-(a.den : Int), (-a.num).toNat⟩

instance : Div Fl := ⟨fun a b => a * Fl.inv b⟩

instance : LE Fl := ⟨fun a b => a.num * b.den ≤ b.num * a.den⟩

instance : LT Fl := ⟨fun a b => a.num * b.den < b.num * a.den⟩

instance (a b : Fl) : Decidable (a ≤ b) :=
  inferInstanceAs (Decidable (a.num * b.den ≤ b.num * a.den))

instance (a b : Fl) : Decidable (a < b) :=
  inferInstanceAs (Decidable (a.num * b.den < b.num * a.den))

namespace Scan

/-- Characters accepted by C `isspace` in the default locale. -/
def isSpaceC (c : Char) : Bool :=
  c = ' ' || c = '\t' || c = '\n' || c = '\r' || c = '\x0b' || c = '\x0c'

/-- A value assigned by one successful `sscanf` conversion:
`%d` assigns an integer, `%f` assigns a (rational-modelled) float. -/
inductive CVal where
  | i (n : Int)
  | f (q : Fl)
deriving DecidableEq, Repr

/-- Kind tag of an assigned value (`true` for `%d`, `false` for `%f`). -/
def kindOf : CVal → Bool
  | .i _ => true
  | .f _ => false

/-- One directive of a format string: a `%d` conversion, a `%f` conversion,
or an ordinary character that must match literally. -/
inductive Tok where
  | tint
  | tflt
  | lit (c : Char)
deriving DecidableEq, Repr

/-- Number of conversion directives in a format. -/
def numConvs : List Tok → Nat
  | [] => 0
  | .tint :: ts => numConvs ts + 1
  | .tflt :: ts => numConvs ts + 1
  | .lit _ :: ts => numConvs ts

/-- Kinds of the conversions of a format, in order (`true` = `%d`). -/
def convKinds : List Tok → List Bool
  | [] => []
  | .tint :: ts => true :: convKinds ts
  | .tflt :: ts => false :: convKinds ts
  | .lit _ :: ts => convKinds ts

/-- Greedy run of a token automaton: consumes characters while a
transition exists, returning the consumed item, the final state and the
unconsumed rest.  This computes the `fscanf` "input item": the longest
input sequence that is a prefix of a matching sequence, provided the
automaton's states are exactly the prefixes of matching sequences. -/
def runTok {σ : Type} (step : σ → Char → Option σ) : σ → List Char → List Char × σ × List Char
  | st, [] => ([], st, [])
  | st, c :: r =>
    match step st c with
    | some st2 =>
      ((c :: (runTok step st2 r).1), (runTok step st2 r).2.1, (runTok step st2 r).2.2)
    | none => ([], st, c :: r)

/-- States of the `%d` item automaton. -/
inductive ISt where
  | start
  | sgn
  | dig
deriving DecidableEq, Repr

/-- Transition of the `%d` item automaton: an optional sign followed by
decimal digits. -/
def stepI : ISt → Char → Option ISt
  | .start, c =>
    if c = '-' || c = '+' then some .sgn else if c.isDigit then some .dig else none
  | .sgn, c => if c.isDigit then some .dig else none
  | .dig, c => if c.isDigit then some .dig else none

/-- A `%d` item matches exactly when at least one digit was read. -/
def matchI : ISt → Bool
  | .dig => true
  | _ => false

/-- States of the `%f` item automaton (decimal floating numerals). -/
inductive FSt where
  | start
  | sgn
  | intg
  | dot0
  | frac
  | e0
  | esgn
  | edig
deriving DecidableEq, Repr

/-- Transition of the `%f` item automaton: optional sign, digits with an
optional decimal point, and an optional exponent part. -/
def stepF : FSt → Char → Option FSt
  | .start, c =>
    if c = '-' || c = '+' then some .sgn
    else if c.isDigit then some .intg
    else if c = '.' then some .dot0 else none
  | .sgn, c =>
    if c.isDigit then some .intg else if c = '.' then some .dot0 else none
  | .intg, c =>
    if c.isDigit then some .intg
    else if c = '.' then some .frac
    else if c = 'e' || c = 'E' then some .e0 else none
  | .dot0, c => if c.isDigit then some .frac else none
  | .frac, c =>
    if c.isDigit then some .frac else if c = 'e' || c = 'E' then some .e0 else none
  | .e0, c =>
    if c = '-' || c = '+' then some .esgn else if c.isDigit then some .edig else none
  | .esgn, c => if c.isDigit then some .edig else none
  | .edig, c => if c.isDigit then some .edig else none

/-- A `%f` item matches exactly in the states that complete a numeral:
after integer digits, after fraction digits (or a trailing point preceded
by digits), or after exponent digits. -/
def matchF : FSt → Bool
  | .intg => true
  | .frac => true
  | .edig => true
  | _ => false

/-- Numeric value of a decimal digit character. -/
def digVal (c : Char) : Nat := c.toNat - 48

/-- Value of a digit string. -/
def natVal (l : List Char) : Nat := l.foldl (fun a c => a * 10 + digVal c) 0

/-- Value of an optionally signed digit string. -/
def intVal : List Char → Int
  | '-' :: cs => -(natVal cs : Int)
  | '+' :: cs => (natVal cs : Int)
  | cs => (natVal cs : Int)

/-- Split an item at the first exponent marker. -/
def splitAtExp : List Char → List Char × Option (List Char)
  | [] => ([], none)
  | c :: cs =>
    if c = 'e' || c = 'E' then ([], some cs)
    else ((c :: (splitAtExp cs).1), (splitAtExp cs).2)

/-- Split a mantissa at the decimal point. -/
def splitAtDot : List Char → List Char × Option (List Char)
  | [] => ([], none)
  | c :: cs =>
    if c = '.' then ([], some cs)
    else ((c :: (splitAtDot cs).1), (splitAtDot cs).2)

/-- Value of an unsigned mantissa. -/
def mantAbs (l : List Char) : Fl :=
  (natVal (splitAtDot l).1 : Fl) +
    match (splitAtDot l).2 with
    | none => 0
    | some fr => ⟨(natVal fr : Int), 10 ^ fr.length⟩

/-- Value of a signed mantissa. -/
def mantVal : List Char → Fl
  | '-' :: cs => -(mantAbs cs)
  | '+' :: cs => mantAbs cs
  | cs => mantAbs cs

/-- Integer power of ten as a model float. -/
def pow10Z (k : Int) : Fl :=
  if 0 ≤ k then ⟨(10 : Int) ^ k.toNat, 1⟩ else ⟨1, 10 ^ (-k).toNat⟩

/-- Value of a matching `%f` item. -/
def fltVal (item : List Char) : Fl :=
  mantVal (splitAtExp item).1 *
    pow10Z (match (splitAtExp item).2 with
            | none => 0
            | some e => intVal e)

/-- Core of a numeric conversion, after white space has been skipped:
extract the greedy item of the given automaton and fail unless the item
matches. -/
def convA0 {σ α : Type} (step : σ → Char → Option σ) (st0 : σ) (ok : σ → Bool)
    (val : List Char → α) (d : List Char) : Option (α × List Char) :=
  if ok (runTok step st0 d).2.1 then
    some (val (runTok step st0 d).1, (runTok step st0 d).2.2)
  else none

/-- Generic numeric conversion: skip leading white space, extract the
greedy item of the given automaton, and fail unless the item matches. -/
def convA {σ α : Type} (step : σ → Char → Option σ) (st0 : σ) (ok : σ → Bool)
    (val : List Char → α) (l : List Char) : Option (α × List Char) :=
  convA0 step st0 ok val (l.dropWhile isSpaceC)

/-- The `%d` conversion. -/
def convInt : List Char → Option (Int × List Char) :=
  convA stepI ISt.start matchI intVal

/-- The `%f` conversion. -/
def convFlt : List Char → Option (Fl × List Char) :=
  convA stepF FSt.start matchF fltVal

/-- Run a format against an input, returning the list of assigned values
(in order; `sscanf`'s return value is its length) and the unconsumed
input at the point where scanning stopped. -/
def scanT : List Tok → List Char → List CVal × List Char
  | [], l => ([], l)
  | .lit _ :: _, [] => ([], [])
  | .lit c :: ts, a :: l => if a = c then scanT ts l else ([], a :: l)
  | .tint :: ts, l =>
    match convInt l with
    | some vr => ((CVal.i vr.1 :: (scanT ts vr.2).1), (scanT ts vr.2).2)
    | none => ([], l)
  | .tflt :: ts, l =>
    match convFlt l with
    | some vr => ((CVal.f vr.1 :: (scanT ts vr.2).1), (scanT ts vr.2).2)
    | none => ([], l)

/-- The format `"%f,%d/%d/%d,%d:%d:%d,%f,%f,%f,%d"` of `hgps.c`. -/
def gpsFmt : List Tok :=
  [.tflt, .lit ',', .tint, .lit '/', .tint, .lit '/', .tint, .lit ',',
   .tint, .lit ':', .tint, .lit ':', .tint, .lit ',',
   .tflt, .lit ',', .tflt, .lit ',', .tflt, .lit ',', .tint]

/-- The format of 18 comma-separated `%f` conversions of `hsensor.c`. -/
def sensorFmt : List Tok :=
  [.tflt, .lit ',', .tflt, .lit ',', .tflt, .lit ',', .tflt, .lit ',',
   .tflt, .lit ',', .tflt, .lit ',', .tflt, .lit ',', .tflt, .lit ',',
   .tflt, .lit ',', .tflt, .lit ',', .tflt, .lit ',', .tflt, .lit ',',
   .tflt, .lit ',', .tflt, .lit ',', .tflt, .lit ',', .tflt, .lit ',',
   .tflt, .lit ',', .tflt]

/-- A format is float-guarded when every `%f` conversion is followed by at
least one further conversion, so that a fully successful scan always
delimits each `%f` item inside the scanned text. -/
def fltGuarded : List Tok → Bool
  | [] => true
  | .tflt :: ts => (numConvs ts != 0) && fltGuarded ts
  | _ :: ts => fltGuarded ts

/-- The line classifier of both programs: `isdigit(*str)`. -/
def dataLine : List Char → Bool
  | [] => false
  | c :: _ => c.isDigit

end Scan

namespace Hgps

/-- The `GPSDATA` structure of `hgps.c`. -/
structure GPSDATA where
  mday : Int
  month : Int
  year : Int
  hour : Int
  minute : Int
  second : Int
  todaySecs : Int
  nsats : Int
  tsecs : Fl
  lat : Fl
  lon : Fl
  alt : Fl
deriving DecidableEq, Repr

/-- Zero record, standing in for the indeterminate contents of the C
stack variables `raw` and `avg` before first assignment (the program never
reads them before a record has been stored: `showAverage` returns at once
while `navg < 1`). -/
def d0 : GPSDATA := ⟨0, 0, 0, 0, 0, 0, 0, 0, 0, 0, 0, 0⟩

/-- `sscanf`'s partial assignment into the `raw` buffer: the i-th
successfully converted value is stored into the i-th argument field, in
the argument order of the `sscanf` call of `hgps.c`; fields beyond the
assigned count keep the buffer's previous contents (`todaySecs` has no
conversion and is never written by the scan). -/
def applyVals (r : GPSDATA) (vs : List Scan.CVal) : GPSDATA :=
  { tsecs := match vs[0]? with | some (Scan.CVal.f q) => q | _ => r.tsecs,
    mday := match vs[1]? with | some (Scan.CVal.i n) => n | _ => r.mday,
    month := match vs[2]? with | some (Scan.CVal.i n) => n | _ => r.month,
    year := match vs[3]? with | some (Scan.CVal.i n) => n | _ => r.year,
    hour := match vs[4]? with | some (Scan.CVal.i n) => n | _ => r.hour,
    minute := match vs[5]? with | some (Scan.CVal.i n) => n | _ => r.minute,
    second := match vs[6]? with | some (Scan.CVal.i n) => n | _ => r.second,
    todaySecs := r.todaySecs,
    lat := match vs[7]? with | some (Scan.CVal.f q) => q | _ => r.lat,
    lon := match vs[8]? with | some (Scan.CVal.f q) => q | _ => r.lon,
    alt := match vs[9]? with | some (Scan.CVal.f q) => q | _ => r.alt,
    nsats := match vs[10]? with | some (Scan.CVal.i n) => n | _ => r.nsats }

/-- Values assigned by scanning a line with the GPS format. -/
def scanVals (l : List Char) : List Scan.CVal := (Scan.scanT Scan.gpsFmt l).1

/-- The two-digit-year normalization `raw.year += 2000`. -/
def normYear (r : GPSDATA) : GPSDATA := { r with year := r.year + 2000 }

/-- Fields of an unaveraged output line, in the printed order of `hgps.c`
(`todaySecs` is not printed). -/
structure RawLine where
  tsecs : Fl
  mday : Int
  month : Int
  year : Int
  hour : Int
  minute : Int
  second : Int
  lat : Fl
  lon : Fl
  alt : Fl
  nsats : Int
deriving DecidableEq, Repr

/-- Project a record onto the printed columns of an unaveraged line. -/
def printRaw (r : GPSDATA) : RawLine :=
  ⟨r.tsecs, r.mday, r.month, r.year, r.hour, r.minute, r.second, r.lat, r.lon, r.alt, r.nsats⟩

/-- Fields of an averaged output line, in the printed order of
`showAverage` in `hgps.c`, including the trailing member count. -/
structure AvgLine where
  tsecs : Fl
  md : Int
  mon : Int
  yr : Int
  hh : Int
  mm : Int
  ss : Int
  lat : Fl
  lon : Fl
  alt : Fl
  nsats : Int
  navg : Int
deriving DecidableEq, Repr

/-- One output line of the GPS pipeline: a passthrough comment
(`printf("# %s", str)`), an unaveraged data line, or an averaged line. -/
inductive Out where
  | comment (l : List Char)
  | raw (r : RawLine)
  | avg (a : AvgLine)
deriving DecidableEq, Repr

/-- The body of `showAverage` past its guard: divide every running sum by
`navg`, decompose the averaged time of day, and choose the date fields
from the latest record (`raw`) when the decomposed hour reaches 24, else
from the first record of the window (saved in `avg`). -/
def mkAvg (navg : Int) (raw avg : GPSDATA) : AvgLine :=
  if 24 ≤ cdiv (cdiv avg.todaySecs navg) 3600 then
    ⟨avg.tsecs / (navg : Fl), raw.mday, raw.month, raw.year,
     cdiv (cdiv avg.todaySecs navg) 3600 - 24,
     cdiv (cdiv avg.todaySecs navg - cdiv (cdiv avg.todaySecs navg) 3600 * 3600) 60,
     cmod (cdiv avg.todaySecs navg) 60,
     avg.lat / (navg : Fl), avg.lon / (navg : Fl), avg.alt / (navg : Fl),
     cdiv avg.nsats navg, navg⟩
  else
    ⟨avg.tsecs / (navg : Fl), avg.mday, avg.month, avg.year,
     cdiv (cdiv avg.todaySecs navg) 3600,
     cdiv (cdiv avg.todaySecs navg - cdiv (cdiv avg.todaySecs navg) 3600 * 3600) 60,
     cmod (cdiv avg.todaySecs navg) 60,
     avg.lat / (navg : Fl), avg.lon / (navg : Fl), avg.alt / (navg : Fl),
     cdiv avg.nsats navg, navg⟩

/-- `showAverage` of `hgps.c`: nothing is emitted (and no division is
performed) unless at least one record was accumulated. -/
def showAverage (navg : Int) (raw avg : GPSDATA) : Option AvgLine :=
  if navg < 1 then none else some (mkAvg navg raw avg)

/-- `updateAverage` of `hgps.c`.  With `navg < 1` the record starts a new
accumulation (all fields copied, `todaySecs` computed from the record's
own time of day); otherwise the record is summed in, adding 24 hours to
its hour when that hour is below the hour stored in `avg` (which is the
hour of the first record of the window, since this branch never writes
`avg->hour`). -/
def updateAverage (navg : Int) (raw avg : GPSDATA) : Int × GPSDATA :=
  if navg < 1 then
    (1, { mday := raw.mday, month := raw.month, year := raw.year,
          hour := raw.hour, minute := raw.minute, second := raw.second,
          todaySecs := raw.hour * 3600 + raw.minute * 60 + raw.second,
          nsats := raw.nsats, tsecs := raw.tsecs,
          lat := raw.lat, lon := raw.lon, alt := raw.alt })
  else
    (navg + 1,
     { avg with
       tsecs := avg.tsecs + raw.tsecs,
       todaySecs := avg.todaySecs +
         (if raw.hour < avg.hour then raw.hour + 24 else raw.hour) * 3600 +
         raw.minute * 60 + raw.second,
       lat := avg.lat + raw.lat,
       lon := avg.lon + raw.lon,
       alt := avg.alt + raw.alt,
       nsats := avg.nsats + raw.nsats })

/-- Loop state of `main` in `hgps.c`: the window start time `t0`
(sentinel -1 before any window), the accumulated count `navg`, the sum
record `avg`, and the scan buffer `raw` (which retains the last record
touched by `sscanf`, whether or not it was admitted). -/
structure St where
  t0 : Fl
  navg : Int
  avg : GPSDATA
  raw : GPSDATA
deriving DecidableEq, Repr

/-- Initial loop state (`t0 = -1.0; navg = 0;`). -/
def initSt : St := ⟨-1, 0, d0, d0⟩

/-- Processing of one admitted (parsed, satellite-filtered,
year-normalized) record by the body of the read loop of `hgps.c`. -/
def handle (avgSecs : Fl) (st : St) (r : GPSDATA) : List Out × St :=
  if avgSecs ≤ 0 then ([Out.raw (printRaw r)], { st with raw := r })
  else if avgSecs < r.tsecs - st.t0 ∨ st.t0 < 0 then
    ((match showAverage st.navg r st.avg with
      | some a => [Out.avg a]
      | none => []),
     ⟨r.tsecs, (updateAverage 0 r st.avg).1, (updateAverage 0 r st.avg).2, r⟩)
  else
    ([], ⟨st.t0, (updateAverage st.navg r st.avg).1, (updateAverage st.navg r st.avg).2, r⟩)

/-- The read loop over a stream of already-admitted records. -/
def runRecsAux (avgSecs : Fl) : St → List GPSDATA → List Out × St
  | st, [] => ([], st)
  | st, r :: rs =>
    ((handle avgSecs st r).1 ++ (runRecsAux avgSecs (handle avgSecs st r).2 rs).1,
     (runRecsAux avgSecs (handle avgSecs st r).2 rs).2)

/-- The final flush at end of input: `showAverage(navg, &raw, &avg)`. -/
def finish (st : St) : List Out :=
  match showAverage st.navg st.raw st.avg with
  | some a => [Out.avg a]
  | none => []

/-- Full record-level run: loop plus the final flush. -/
def runRecs (avgSecs : Fl) (rs : List GPSDATA) : List Out :=
  (runRecsAux avgSecs initSt rs).1 ++ finish (runRecsAux avgSecs initSt rs).2

/-- Processing of one input line: classification, scan into the `raw`
buffer, count check, satellite filter, year normalization, then the
record handling. -/
def lineStep (avgSecs : Fl) (minSats : Int) (st : St) (l : List Char) : List Out × St :=
  if Scan.dataLine l = false then ([Out.comment l], st)
  else if (scanVals l).length ≠ 11 then
    ([Out.comment l], { st with raw := applyVals st.raw (scanVals l) })
  else if (applyVals st.raw (scanVals l)).nsats < minSats then
    ([Out.comment l], { st with raw := applyVals st.raw (scanVals l) })
  else
    handle avgSecs st (normYear (applyVals st.raw (scanVals l)))

/-- The read loop over raw input lines. -/
def runLinesAux (avgSecs : Fl) (minSats : Int) : St → List (List Char) → List Out × St
  | st, [] => ([], st)
  | st, l :: ls =>
    ((lineStep avgSecs minSats st l).1 ++
       (runLinesAux avgSecs minSats (lineStep avgSecs minSats st l).2 ls).1,
     (runLinesAux avgSecs minSats (lineStep avgSecs minSats st l).2 ls).2)

/-- Full line-level run of `hgps.c` (the leading line echoing the
invocation is outside the model). -/
def runLines (avgSecs : Fl) (minSats : Int) (ls : List (List Char)) : List Out :=
  (runLinesAux avgSecs minSats initSt ls).1 ++ finish (runLinesAux avgSecs minSats initSt ls).2

/-- The output produced for one line when averaging is disabled, as a
function of the line alone. -/
def pureLine (minSats : Int) (l : List Char) : Out :=
  if Scan.dataLine l = false then Out.comment l
  else if (scanVals l).length ≠ 11 then Out.comment l
  else if (applyVals d0 (scanVals l)).nsats < minSats then Out.comment l
  else Out.raw (printRaw (normYear (applyVals d0 (scanVals l))))

/-- Whether a line is admitted as a valid record: it is a data line, it
scans into all 11 fields, and its satellite count passes the filter. -/
def validLine (minSats : Int) (l : List Char) : Bool :=
  Scan.dataLine l && ((scanVals l).length == 11) &&
    decide (minSats ≤ (applyVals d0 (scanVals l)).nsats)

/-- Sum of the member counts of the averaged lines of an output list. -/
def sumCounts (os : List Out) : Int :=
  (os.map (fun o => match o with
                    | Out.avg a => a.navg
                    | _ => 0)).sum

/-- Modelled from the spec: the accumulation rule that claim C2 describes,
in which the rollover test for each record compares against the raw hour
of the record most recently added to the window (the previous record in
sequence), not the hour of the window's first record.  `specGo ref acc rs`
folds the remaining records, carrying the previous raw hour. -/
def specGo : Int → Int → List GPSDATA → Int
  | _, acc, [] => acc
  | ref, acc, r :: rs =>
    specGo r.hour
      (acc + (if r.hour < ref then r.hour + 24 else r.hour) * 3600 + r.minute * 60 + r.second)
      rs

/-- Modelled from the spec: rollover-corrected time-of-day sum of a window
whose first record is `r0` followed by `rs`, under the previous-record
reference rule stated by the spec sentence of claim C2. -/
def specPrevRefTodaySum (r0 : GPSDATA) (rs : List GPSDATA) : Int :=
  specGo r0.hour (r0.hour * 3600 + r0.minute * 60 + r0.second) rs

end Hgps

namespace Hsensor

/-- The `SENSORDATA` structure of `hsensor.c`. -/
structure SENSORDATA where
  tsecs : Fl
  tmpi : Fl
  a1x : Fl
  a1y : Fl
  a1z : Fl
  a2x : Fl
  a2y : Fl
  a2z : Fl
  magx : Fl
  magy : Fl
  magz : Fl
  gyrx : Fl
  gyry : Fl
  gyrz : Fl
  humid : Fl
  prss : Fl
  tmpx : Fl
  vbat : Fl
deriving DecidableEq, Repr

/-- Zero record, standing in for the indeterminate initial contents of
the C stack variables (never read before assignment). -/
def s0 : SENSORDATA := ⟨0, 0, 0, 0, 0, 0, 0, 0, 0, 0, 0, 0, 0, 0, 0, 0, 0, 0⟩

/-- `sscanf`'s partial assignment into the `raw` buffer of `hsensor.c`:
the i-th successfully converted value is stored into the i-th argument
field; fields beyond the assigned count keep the buffer's previous
contents. -/
def applyVals (r : SENSORDATA) (vs : List Scan.CVal) : SENSORDATA :=
  { tsecs := match vs[0]? with | some (Scan.CVal.f q) => q | _ => r.tsecs,
    tmpi := match vs[1]? with | some (Scan.CVal.f q) => q | _ => r.tmpi,
    a1x := match vs[2]? with | some (Scan.CVal.f q) => q | _ => r.a1x,
    a1y := match vs[3]? with | some (Scan.CVal.f q) => q | _ => r.a1y,
    a1z := match vs[4]? with | some (Scan.CVal.f q) => q | _ => r.a1z,
    a2x := match vs[5]? with | some (Scan.CVal.f q) => q | _ => r.a2x,
    a2y := match vs[6]? with | some (Scan.CVal.f q) => q | _ => r.a2y,
    a2z := match vs[7]? with | some (Scan.CVal.f q) => q | _ => r.a2z,
    magx := match vs[8]? with | some (Scan.CVal.f q) => q | _ => r.magx,
    magy := match vs[9]? with | some (Scan.CVal.f q) => q | _ => r.magy,
    magz := match vs[10]? with | some (Scan.CVal.f q) => q | _ => r.magz,
    gyrx := match vs[11]? with | some (Scan.CVal.f q) => q | _ => r.gyrx,
    gyry := match vs[12]? with | some (Scan.CVal.f q) => q | _ => r.gyry,
    gyrz := match vs[13]? with | some (Scan.CVal.f q) => q | _ => r.gyrz,
    humid := match vs[14]? with | some (Scan.CVal.f q) => q | _ => r.humid,
    prss := match vs[15]? with | some (Scan.CVal.f q) => q | _ => r.prss,
    tmpx := match vs[16]? with | some (Scan.CVal.f q) => q | _ => r.tmpx,
    vbat := match vs[17]? with | some (Scan.CVal.f q) => q | _ => r.vbat }

/-- Values assigned by scanning a line with the sensor format. -/
def scanVals (l : List Char) : List Scan.CVal := (Scan.scanT Scan.sensorFmt l).1

/-- One output line of the sensor pipeline.  An averaged line prints the
18 averaged channels; the member count of the flushed window is carried
in the event for specification purposes (the program does not print it). -/
inductive Out where
  | comment (l : List Char)
  | raw (r : SENSORDATA)
  | avg (a : SENSORDATA) (navg : Int)
deriving DecidableEq, Repr

/-- `showAverage` of `hsensor.c`: every channel divided by the count,
guarded by `navg < 1`. -/
def showAverage (navg : Int) (avg : SENSORDATA) : Option SENSORDATA :=
  if navg < 1 then none
  else
    some ⟨avg.tsecs / (navg : Fl), avg.tmpi / (navg : Fl),
          avg.a1x / (navg : Fl), avg.a1y / (navg : Fl), avg.a1z / (navg : Fl),
          avg.a2x / (navg : Fl), avg.a2y / (navg : Fl), avg.a2z / (navg : Fl),
          avg.magx / (navg : Fl), avg.magy / (navg : Fl), avg.magz / (navg : Fl),
          avg.gyrx / (navg : Fl), avg.gyry / (navg : Fl), avg.gyrz / (navg : Fl),
          avg.humid / (navg : Fl), avg.prss / (navg : Fl),
          avg.tmpx / (navg : Fl), avg.vbat / (navg : Fl)⟩

/-- `updateAverage` of `hsensor.c`. -/
def updateAverage (navg : Int) (raw avg : SENSORDATA) : Int × SENSORDATA :=
  if navg < 1 then (1, raw)
  else
    (navg + 1,
     ⟨avg.tsecs + raw.tsecs, avg.tmpi + raw.tmpi,
      avg.a1x + raw.a1x, avg.a1y + raw.a1y, avg.a1z + raw.a1z,
      avg.a2x + raw.a2x, avg.a2y + raw.a2y, avg.a2z + raw.a2z,
      avg.magx + raw.magx, avg.magy + raw.magy, avg.magz + raw.magz,
      avg.gyrx + raw.gyrx, avg.gyry + raw.gyry, avg.gyrz + raw.gyrz,
      avg.humid + raw.humid, avg.prss + raw.prss,
      avg.tmpx + raw.tmpx, avg.vbat + raw.vbat⟩)

/-- Loop state of `main` in `hsensor.c`. -/
structure St where
  t0 : Fl
  navg : Int
  avg : SENSORDATA
  raw : SENSORDATA
deriving DecidableEq, Repr

/-- Initial loop state. -/
def initSt : St := ⟨-1, 0, s0, s0⟩

/-- Processing of one admitted record by the loop body of `hsensor.c`. -/
def handle (avgSecs : Fl) (st : St) (r : SENSORDATA) : List Out × St :=
  if avgSecs ≤ 0 then ([Out.raw r], { st with raw := r })
  else if avgSecs < r.tsecs - st.t0 ∨ st.t0 < 0 then
    ((match showAverage st.navg st.avg with
      | some a => [Out.avg a st.navg]
      | none => []),
     ⟨r.tsecs, (updateAverage 0 r st.avg).1, (updateAverage 0 r st.avg).2, r⟩)
  else
    ([], ⟨st.t0, (updateAverage st.navg r st.avg).1, (updateAverage st.navg r st.avg).2, r⟩)

/-- The read loop over a stream of already-admitted records. -/
def runRecsAux (avgSecs : Fl) : St → List SENSORDATA → List Out × St
  | st, [] => ([], st)
  | st, r :: rs =>
    ((handle avgSecs st r).1 ++ (runRecsAux avgSecs (handle avgSecs st r).2 rs).1,
     (runRecsAux avgSecs (handle avgSecs st r).2 rs).2)

/-- The final flush at end of input: `showAverage(navg, &avg)`. -/
def finish (st : St) : List Out :=
  match showAverage st.navg st.avg with
  | some a => [Out.avg a st.navg]
  | none => []

/-- Full record-level run: loop plus the final flush. -/
def runRecs (avgSecs : Fl) (rs : List SENSORDATA) : List Out :=
  (runRecsAux avgSecs initSt rs).1 ++ finish (runRecsAux avgSecs initSt rs).2

/-- Processing of one input line of `hsensor.c`. -/
def lineStep (avgSecs : Fl) (st : St) (l : List Char) : List Out × St :=
  if Scan.dataLine l = false then ([Out.comment l], st)
  else if (scanVals l).length ≠ 18 then
    ([Out.comment l], { st with raw := applyVals st.raw (scanVals l) })
  else
    handle avgSecs st (applyVals st.raw (scanVals l))

/-- The read loop over raw input lines. -/
def runLinesAux (avgSecs : Fl) : St → List (List Char) → List Out × St
  | st, [] => ([], st)
  | st, l :: ls =>
    ((lineStep avgSecs st l).1 ++ (runLinesAux avgSecs (lineStep avgSecs st l).2 ls).1,
     (runLinesAux avgSecs (lineStep avgSecs st l).2 ls).2)

/-- Full line-level run of `hsensor.c`. -/
def runLines (avgSecs : Fl) (ls : List (List Char)) : List Out :=
  (runLinesAux avgSecs initSt ls).1 ++ finish (runLinesAux avgSecs initSt ls).2

/-- The output produced for one line when averaging is disabled, as a
function of the line alone. -/
def pureLine (l : List Char) : Out :=
  if Scan.dataLine l = false then Out.comment l
  else if (scanVals l).length ≠ 18 then Out.comment l
  else Out.raw (applyVals s0 (scanVals l))

/-- Whether a line is admitted as a valid record. -/
def validLine (l : List Char) : Bool :=
  Scan.dataLine l && ((scanVals l).length == 18)

/-- Sum of the member counts of the averaged events of an output list. -/
def sumCounts (os : List Out) : Int :=
  (os.map (fun o => match o with
                    | Out.avg _ n => n
                    | _ => 0)).sum

end Hsensor
/-- Accumulation of one whole GPS window: the first record opens it
(`updateAverage` with count 0 copies it) and each later record is summed
in (`updateAverage` with any count ≥ 1 takes the summing branch; the
count argument only selects the branch, never the sums). -/
def Hgps.windowAcc (r0 : Hgps.GPSDATA) (rs : List Hgps.GPSDATA) : Hgps.GPSDATA :=
  rs.foldl (fun a r => (Hgps.updateAverage 1 r a).2) (Hgps.updateAverage 0 r0 Hgps.d0).2

/-- First record of the C1 scenario: 23:59:58, elapsed 0, day 1. -/
def gpsC1a : Hgps.GPSDATA :=
  { mday := 1, month := 1, year := 2024, hour := 23, minute := 59, second := 58,
    todaySecs := 0, nsats := 8, tsecs := 0, lat := 0, lon := 0, alt := 0 }

/-- Second record of the C1 scenario: 23:59:59, elapsed 1, day 1. -/
def gpsC1b : Hgps.GPSDATA := { gpsC1a with second := 59, tsecs := 1 }

/-- Third record of the C1 scenario: 00:00:01, elapsed 3, day 2. -/
def gpsC1c : Hgps.GPSDATA :=
  { gpsC1a with mday := 2, hour := 0, minute := 0, second := 1, tsecs := 3 }

/-- First record of the C2 scenario: hour 5. -/
def gpsC2a : Hgps.GPSDATA :=
  { mday := 1, month := 1, year := 2024, hour := 5, minute := 0, second := 0,
    todaySecs := 0, nsats := 8, tsecs := 0, lat := 0, lon := 0, alt := 0 }

/-- Second record of the C2 scenario: hour 3. -/
def gpsC2b : Hgps.GPSDATA := { gpsC2a with hour := 3, tsecs := 1 }

/-- Third record of the C2 scenario: hour 4. -/
def gpsC2c : Hgps.GPSDATA := { gpsC2a with hour := 4, tsecs := 2 }

/-- C9 scenario, line 1: `100,1/1/24,23:59:59,0,0,0,9`. -/
def gpsL1 : List Char :=
  ['1', '0', '0', ',', '1', '/', '1', '/', '2', '4', ',',
   '2', '3', ':', '5', '9', ':', '5', '9', ',', '0', ',', '0', ',', '0', ',', '9']

/-- C9 scenario, line 2: `105,2/1/24,0:0:1,0,0,0,9`. -/
def gpsL2 : List Char :=
  ['1', '0', '5', ',', '2', '/', '1', '/', '2', '4', ',',
   '0', ':', '0', ':', '1', ',', '0', ',', '0', ',', '0', ',', '9']

/-- C9 scenario, line 3 (filtered: 0 satellites): `200,9/9/99,1:2:3,0,0,0,0`. -/
def gpsL3 : List Char :=
  ['2', '0', '0', ',', '9', '/', '9', '/', '9', '9', ',',
   '1', ':', '2', ':', '3', ',', '0', ',', '0', ',', '0', ',', '0']

/-- Sensor data line with exactly 18 fields, the last being `1`. -/
def snsP : List Char :=
  ['0', ',', '0', ',', '0', ',', '0', ',', '0', ',', '0', ',', '0', ',', '0', ',', '0', ',', '0', ',', '0', ',', '0', ',', '0', ',', '0', ',', '0', ',', '0', ',', '0', ',', '1']

/-- Loop state of the GPS record-level run after the first `i` records. -/
def Hgps.stAt (avgSecs : Fl) (rs : List Hgps.GPSDATA) (i : Nat) : Hgps.St :=
  (Hgps.runRecsAux avgSecs Hgps.initSt (rs.take i)).2

/-- Loop state of the sensor record-level run after the first `i`
records. -/
def Hsensor.stAt (avgSecs : Fl) (rs : List Hsensor.SENSORDATA) (i : Nat) : Hsensor.St :=
  (Hsensor.runRecsAux avgSecs Hsensor.initSt (rs.take i)).2

/-- Reachability invariant of the GPS loop state: the count is never
negative, and while the window-start sentinel is negative no record has
been accumulated. -/
def Hgps.inv (st : Hgps.St) : Prop :=
  0 ≤ st.navg ∧ (st.t0 < 0 → st.navg = 0)

/-- Reachability invariant of the sensor loop state. -/
def Hsensor.inv (st : Hsensor.St) : Prop :=
  0 ≤ st.navg ∧ (st.t0 < 0 → st.navg = 0)

theorem Fl.le_iff (a b : Fl) : a ≤ b ↔ a.num * (b.den : Int) ≤ b.num * (a.den : Int) :=
  Iff.rfl

theorem Fl.lt_iff (a b : Fl) : a < b ↔ a.num * (b.den : Int) < b.num * (a.den : Int) :=
  Iff.rfl

theorem Fl.zero_num : (0 : Fl).num = 0 := rfl

theorem Fl.zero_den : (0 : Fl).den = 1 := rfl

theorem Fl.not_lt_zero_of_zero_le (a : Fl) (h : (0 : Fl) ≤ a) : ¬ a < 0 := by
  have h1 := (Fl.le_iff 0 a).mp h
  intro h2
  have h3 := (Fl.lt_iff a 0).mp h2
  rw [Fl.zero_num, Fl.zero_den] at h1 h3
  simp only [Nat.cast_one, mul_one, zero_mul] at h1 h3
  omega

/-- Helper: folding further records into a window accumulator never
changes the stored hour (the summing branch of `updateAverage` does not
write it), and adds to `todaySecs` exactly the rollover-corrected
time-of-day seconds of each record, corrected against that stored hour. -/
theorem Hgps.windowAcc_fold (rs : List Hgps.GPSDATA) :
    ∀ a : Hgps.GPSDATA,
      (rs.foldl (fun a r => (Hgps.updateAverage 1 r a).2) a).hour = a.hour ∧
      (rs.foldl (fun a r => (Hgps.updateAverage 1 r a).2) a).todaySecs =
        a.todaySecs +
          (rs.map (fun r =>
            (if r.hour < a.hour then r.hour + 24 else r.hour) * 3600 +
              r.minute * 60 + r.second)).sum := by
  induction rs with
  | nil => intro a; simp
  | cons r rs ih =>
    intro a
    have hho : ((Hgps.updateAverage 1 r a).2).hour = a.hour := by
      simp [Hgps.updateAverage]
    have hts : ((Hgps.updateAverage 1 r a).2).todaySecs =
        a.todaySecs +
          ((if r.hour < a.hour then r.hour + 24 else r.hour) * 3600 +
            r.minute * 60 + r.second) := by
      simp [Hgps.updateAverage]; ring
    have h2 := ih ((Hgps.updateAverage 1 r a).2)
    rw [List.foldl_cons, List.map_cons, List.sum_cons]
    refine ⟨by rw [h2.1, hho], ?_⟩
    rw [h2.2, hho, hts]
    ring

/-- C1: on the three-record rollover input (23:59:58, 23:59:59, 00:00:01,
elapsed seconds 0, 1, 3, window length 10), the program emits exactly one
averaged line; its rollover-corrected time-of-day average is 86399
seconds, whose decomposed hour is 23, so — contrary to the claim — the
hour ≥ 24 branch of `showAverage` is not taken (23 < 24): the reported
hour is 23 and the reported date is that of the first record (day 1), not
of the last record (day 2). -/
theorem C1_counterexample :
    Hgps.runRecs 10 [gpsC1a, gpsC1b, gpsC1c] =
      [Hgps.Out.avg ⟨⟨4, 3⟩, 1, 1, 2024, 23, 59, 59, ⟨0, 3⟩, ⟨0, 3⟩, ⟨0, 3⟩, 8, 3⟩] ∧
    gpsC1a.mday = 1 ∧ gpsC1c.mday = 2 ∧ ((1 : Int) = 2 → False) := by
  decide

/-- C1 (amended): on that input the rollover-corrected sum is
86398 + 86399 + 86401 = 259198, the integer average is 86399 seconds,
the decomposed hour 86399 / 3600 = 23 is below 24, so the else branch of
`showAverage` is taken: the reported time is 23:59:59 and the reported
date is the date of the first record of the window. -/
theorem C1_amended :
    Hgps.runRecs 10 [gpsC1a, gpsC1b, gpsC1c] =
      [Hgps.Out.avg ⟨⟨4, 3⟩, 1, 1, 2024, 23, 59, 59, ⟨0, 3⟩, ⟨0, 3⟩, ⟨0, 3⟩, 8, 3⟩] ∧
    (Hgps.runRecsAux 10 Hgps.initSt [gpsC1a, gpsC1b, gpsC1c]).2.avg.todaySecs = 259198 ∧
    (Hgps.runRecsAux 10 Hgps.initSt [gpsC1a, gpsC1b, gpsC1c]).2.navg = 3 ∧
    cdiv 259198 3 = 86399 ∧ cdiv 86399 3600 = 23 ∧ ¬ (24 ≤ (23 : Int)) := by
  decide

/-- C2: after accumulating records with hours 5 and 3, the stored
reference hour is still 5 (the hour of the window's first record), so the
record with hour 4 is corrected to 28 h (4 < 5) and the accumulated
time-of-day sum is 216000 s — whereas the previous-record rule stated by
the claim compares 4 against 3, applies no correction, and yields
129600 s.  The code therefore compares against the window's first hour,
not the previous record's hour. -/
theorem C2_counterexample :
    (Hgps.updateAverage 1 gpsC2b (Hgps.updateAverage 0 gpsC2a Hgps.d0).2).2.hour = 5 ∧
    gpsC2b.hour = 3 ∧
    (Hgps.updateAverage 2 gpsC2c
        (Hgps.updateAverage 1 gpsC2b (Hgps.updateAverage 0 gpsC2a Hgps.d0).2).2).2.todaySecs
      = 216000 ∧
    Hgps.specPrevRefTodaySum gpsC2a [gpsC2b, gpsC2c] = 129600 ∧
    ((216000 : Int) = 129600 → False) := by
  decide

/-- C2 (amended): in the accumulation rule, the hour used in the
midnight-rollover test is the hour of the window's first record: the
summing branch of `updateAverage` never writes `avg->hour`, so over a
whole window every record is corrected against the first record's raw
hour. -/
theorem C2_amended :
    (∀ (navg : Int) (r a : Hgps.GPSDATA), 1 ≤ navg →
      (Hgps.updateAverage navg r a).2.hour = a.hour ∧
      (Hgps.updateAverage navg r a).2.todaySecs =
        a.todaySecs +
          ((if r.hour < a.hour then r.hour + 24 else r.hour) * 3600 +
            r.minute * 60 + r.second)) ∧
    (∀ (r0 : Hgps.GPSDATA) (rs : List Hgps.GPSDATA),
      (Hgps.windowAcc r0 rs).hour = r0.hour ∧
      (Hgps.windowAcc r0 rs).todaySecs =
        (r0.hour * 3600 + r0.minute * 60 + r0.second) +
          (rs.map (fun r =>
            (if r.hour < r0.hour then r.hour + 24 else r.hour) * 3600 +
              r.minute * 60 + r.second)).sum) := by
  constructor
  · intro navg r a h
    have hn : ¬ navg < 1 := by omega
    constructor
    · simp [Hgps.updateAverage, hn]
    · simp [Hgps.updateAverage, hn]; ring
  · intro r0 rs
    have h0 : (Hgps.updateAverage 0 r0 Hgps.d0).2.hour = r0.hour := by
      simp [Hgps.updateAverage]
    have h1 : (Hgps.updateAverage 0 r0 Hgps.d0).2.todaySecs =
        r0.hour * 3600 + r0.minute * 60 + r0.second := by
      simp [Hgps.updateAverage]
    have h2 := Hgps.windowAcc_fold rs (Hgps.updateAverage 0 r0 Hgps.d0).2
    exact ⟨by rw [Hgps.windowAcc, h2.1, h0], by rw [Hgps.windowAcc, h2.2, h0, h1]⟩

/-- Witness for the amended C2 theorem at a concrete accumulator and
record. -/
theorem C2_amended_witness :
    (1 : Int) ≤ 1 ∧
    ((Hgps.updateAverage 1 gpsC2b gpsC2a).2.hour = gpsC2a.hour ∧
     (Hgps.updateAverage 1 gpsC2b gpsC2a).2.todaySecs =
       gpsC2a.todaySecs +
         ((if gpsC2b.hour < gpsC2a.hour then gpsC2b.hour + 24 else gpsC2b.hour) * 3600 +
           gpsC2b.minute * 60 + gpsC2b.second)) :=
  ⟨by decide, C2_amended.1 1 gpsC2b gpsC2a (by decide)⟩

/-- C9: a record with too few satellites is echoed only as a passthrough
line and never touches the sums or the count — but it is left in the
shared `raw` buffer, so when it is the last parsed line and the final
window's average crosses midnight, `showAverage` displays its
(un-normalized, two-digit) date in the final averaged line.  Here the
final averaged line reports date 9/9/99, the date fields of the filtered
line, while both valid records carry year 2024. -/
theorem C9_counterexample :
    Hgps.runLines 10 4 [gpsL1, gpsL2, gpsL3] =
      [Hgps.Out.comment gpsL3,
       Hgps.Out.avg ⟨⟨205, 2⟩, 9, 9, 99, 0, 0, 0, ⟨0, 2⟩, ⟨0, 2⟩, ⟨0, 2⟩, 9, 2⟩] ∧
    Hgps.validLine 4 gpsL3 = false ∧
    (Hgps.applyVals Hgps.d0 (Hgps.scanVals gpsL3)).mday = 9 ∧
    (Hgps.applyVals Hgps.d0 (Hgps.scanVals gpsL3)).month = 9 ∧
    (Hgps.applyVals Hgps.d0 (Hgps.scanVals gpsL3)).year = 99 ∧
    (Hgps.normYear (Hgps.applyVals Hgps.d0 (Hgps.scanVals gpsL1))).year = 2024 ∧
    (Hgps.normYear (Hgps.applyVals Hgps.d0 (Hgps.scanVals gpsL2))).year = 2024 ∧
    ((99 : Int) = 2024 → False) := by
  decide

/-- C9 (amended): a parsed record whose satellite count is below the
minimum is emitted only as a passthrough of the original line, before
year normalization, and leaves the accumulator (count, sums, window start
time) untouched; the only state it writes is the shared `raw` scan
buffer, whose date fields the final flush may later display. -/
theorem C9_amended :
    ∀ (avgSecs : Fl) (minSats : Int) (st : Hgps.St) (l : List Char),
      Scan.dataLine l = true →
      (Hgps.scanVals l).length = 11 →
      (Hgps.applyVals st.raw (Hgps.scanVals l)).nsats < minSats →
      (Hgps.lineStep avgSecs minSats st l).1 = [Hgps.Out.comment l] ∧
      (Hgps.lineStep avgSecs minSats st l).2.t0 = st.t0 ∧
      (Hgps.lineStep avgSecs minSats st l).2.navg = st.navg ∧
      (Hgps.lineStep avgSecs minSats st l).2.avg = st.avg ∧
      (Hgps.lineStep avgSecs minSats st l).2.raw =
        Hgps.applyVals st.raw (Hgps.scanVals l) := by
  intro avgSecs minSats st l h1 h2 h3
  simp [Hgps.lineStep, h1, h2, h3]

/-- Witness for the amended C9 theorem on the filtered line of the C9
scenario. -/
theorem C9_amended_witness :
    Scan.dataLine gpsL3 = true ∧
    (Hgps.scanVals gpsL3).length = 11 ∧
    (Hgps.applyVals Hgps.initSt.raw (Hgps.scanVals gpsL3)).nsats < 4 ∧
    (Hgps.lineStep 10 4 Hgps.initSt gpsL3).1 = [Hgps.Out.comment gpsL3] :=
  ⟨by decide, by decide, by decide,
   (C9_amended 10 4 Hgps.initSt gpsL3 (by decide) (by decide) (by decide)).1⟩

/-- The consumed item and the unconsumed rest of an automaton run
reassemble the input. -/
theorem Scan.runTok_decomp {σ : Type} (step : σ → Char → Option σ) :
    ∀ (l : List Char) (st : σ),
      (Scan.runTok step st l).1 ++ (Scan.runTok step st l).2.2 = l := by
  intro l
  induction l with
  | nil => intro st; rfl
  | cons c r ih =>
    intro st
    cases h : step st c with
    | some st2 => simp [Scan.runTok, h, ih]
    | none => simp [Scan.runTok, h]

/-- A run that stops at a character stops at the same place on any
extension of the input. -/
theorem Scan.runTok_append_stop {σ : Type} (step : σ → Char → Option σ) :
    ∀ (l : List Char) (st : σ) (s : List Char) (c : Char) (r : List Char),
      (Scan.runTok step st l).2.2 = c :: r →
      Scan.runTok step st (l ++ s) =
        ((Scan.runTok step st l).1, (Scan.runTok step st l).2.1, c :: (r ++ s)) := by
  intro l
  induction l with
  | nil => intro st s c r h; exact absurd h (by simp [Scan.runTok])
  | cons a l ih =>
    intro st s c r h
    cases hs : step st a with
    | some st2 =>
      have h2 : (Scan.runTok step st2 l).2.2 = c :: r := by
        simpa [Scan.runTok, hs] using h
      show Scan.runTok step st (a :: (l ++ s)) = _
      simp [Scan.runTok, hs, ih st2 s c r h2]
    | none =>
      have h2 : a = c ∧ l = r := by simpa [Scan.runTok, hs] using h
      obtain ⟨rfl, rfl⟩ := h2
      show Scan.runTok step st (a :: (l ++ s)) = _
      simp [Scan.runTok, hs]

/-- A run that consumed its whole input continues from its final state on
any extension of the input. -/
theorem Scan.runTok_append_end {σ : Type} (step : σ → Char → Option σ) :
    ∀ (l : List Char) (st : σ) (s : List Char),
      (Scan.runTok step st l).2.2 = [] →
      Scan.runTok step st (l ++ s) =
        ((Scan.runTok step st l).1 ++ (Scan.runTok step (Scan.runTok step st l).2.1 s).1,
         (Scan.runTok step (Scan.runTok step st l).2.1 s).2.1,
         (Scan.runTok step (Scan.runTok step st l).2.1 s).2.2) := by
  intro l
  induction l with
  | nil => intro st s _; simp [Scan.runTok]
  | cons a l ih =>
    intro st s h
    cases hs : step st a with
    | some st2 =>
      have h2 : (Scan.runTok step st2 l).2.2 = [] := by
        simpa [Scan.runTok, hs] using h
      show Scan.runTok step st (a :: (l ++ s)) = _
      simp [Scan.runTok, hs, ih st2 s h2]
    | none => simp [Scan.runTok, hs] at h

/-- A run that consumed nothing is still in its initial state. -/
theorem Scan.runTok_item_nil {σ : Type} (step : σ → Char → Option σ) :
    ∀ (l : List Char) (st : σ),
      (Scan.runTok step st l).1 = [] → (Scan.runTok step st l).2.1 = st := by
  intro l st
  cases l with
  | nil => intro _; rfl
  | cons a l =>
    cases hs : step st a with
    | some st2 => simp [Scan.runTok, hs]
    | none => intro _; simp [Scan.runTok, hs]

/-- Dropping a prefix of matching characters commutes with appending,
when something is left. -/
theorem Scan.dropWhile_append_cons {α : Type} (f : α → Bool) :
    ∀ (l : List α) (c : α) (r s : List α),
      l.dropWhile f = c :: r → (l ++ s).dropWhile f = c :: (r ++ s) := by
  intro l
  induction l with
  | nil => intro c r s h; simp [List.dropWhile] at h
  | cons a l ih =>
    intro c r s h
    by_cases hf : f a = true
    · rw [List.dropWhile_cons, if_pos hf] at h
      rw [List.cons_append, List.dropWhile_cons, if_pos hf]
      exact ih c r s h
    · rw [List.dropWhile_cons, if_neg hf] at h
      injection h with h1 h2
      subst h1
      subst h2
      rw [List.cons_append, List.dropWhile_cons, if_neg hf]

/-- A successful conversion whose rest is nonempty started from nonempty
input. -/
theorem Scan.convA0_ne_nil {σ α : Type} (step : σ → Char → Option σ) (st0 : σ)
    (ok : σ → Bool) (val : List Char → α) (d : List Char) (v : α) (c : Char)
    (r : List Char) (h : Scan.convA0 step st0 ok val d = some (v, c :: r)) :
    d ≠ [] := by
  intro hd
  subst hd
  rw [Scan.convA0] at h
  by_cases hok : ok (Scan.runTok step st0 []).2.1 = true
  · rw [if_pos hok] at h
    have : (Scan.runTok step st0 ([] : List Char)).2.2 = c :: r := by
      have := congrArg (fun o => Option.map Prod.snd o) h
      simpa using this
    simpa [Scan.runTok] using this
  · rw [if_neg hok] at h
    exact Option.noConfusion h

/-- A conversion that stopped at a character behaves identically on any
extension of its input. -/
theorem Scan.convA0_append_cons {σ α : Type} (step : σ → Char → Option σ) (st0 : σ)
    (ok : σ → Bool) (val : List Char → α) (d s : List Char) (v : α) (c : Char)
    (r : List Char) (h : Scan.convA0 step st0 ok val d = some (v, c :: r)) :
    Scan.convA0 step st0 ok val (d ++ s) = some (v, c :: (r ++ s)) := by
  rw [Scan.convA0] at h
  by_cases hok : ok (Scan.runTok step st0 d).2.1 = true
  · rw [if_pos hok] at h
    have hv : val (Scan.runTok step st0 d).1 = v ∧ (Scan.runTok step st0 d).2.2 = c :: r := by
      have := Option.some.inj h
      exact ⟨congrArg Prod.fst this, congrArg Prod.snd this⟩
    have hrun := Scan.runTok_append_stop step d st0 s c r hv.2
    rw [Scan.convA0, hrun]
    simp [hok, hv.1]
  · rw [if_neg hok] at h
    exact Option.noConfusion h

/-- The white-space-skipping wrapper of `convA0_append_cons`. -/
theorem Scan.convA_append_cons {σ α : Type} (step : σ → Char → Option σ) (st0 : σ)
    (ok : σ → Bool) (val : List Char → α) (l s : List Char) (v : α) (c : Char)
    (r : List Char) (h : Scan.convA step st0 ok val l = some (v, c :: r)) :
    Scan.convA step st0 ok val (l ++ s) = some (v, c :: (r ++ s)) := by
  rw [Scan.convA] at h
  have hne := Scan.convA0_ne_nil step st0 ok val _ v c r h
  rcases hd : l.dropWhile Scan.isSpaceC with _ | ⟨a, t⟩
  · exact absurd hd hne
  · rw [hd] at h
    rw [Scan.convA, Scan.dropWhile_append_cons Scan.isSpaceC l a t s hd]
    exact Scan.convA0_append_cons step st0 ok val (a :: t) s v c r h

/-- From the digits state, the `%d` automaton stays in the digits state. -/
theorem Scan.runTok_dig (s : List Char) :
    ∀ st : Scan.ISt, st = Scan.ISt.dig → (Scan.runTok Scan.stepI st s).2.1 = Scan.ISt.dig := by
  induction s with
  | nil => intro st h; subst h; rfl
  | cons c r ih =>
    intro st h
    subst h
    by_cases hc : c.isDigit = true
    · have hs : Scan.stepI Scan.ISt.dig c = some Scan.ISt.dig := by simp [Scan.stepI, hc]
      simp [Scan.runTok, hs, ih Scan.ISt.dig rfl]
    · have hs : Scan.stepI Scan.ISt.dig c = none := by simp [Scan.stepI, hc]
      simp [Scan.runTok, hs]

/-- A successful `%d` conversion stays successful on any extension of the
input (the item can only grow by further digits). -/
theorem Scan.convInt_append (l s : List Char) (v : Int) (r : List Char)
    (h : Scan.convInt l = some (v, r)) :
    ∃ v2 r2, Scan.convInt (l ++ s) = some (v2, r2) := by
  rcases r with _ | ⟨c, r⟩
  swap
  · exact ⟨v, c :: (r ++ s), Scan.convA_append_cons Scan.stepI Scan.ISt.start Scan.matchI
      Scan.intVal l s v c r h⟩
  · rw [Scan.convInt, Scan.convA, Scan.convA0] at h
    by_cases hok : Scan.matchI (Scan.runTok Scan.stepI Scan.ISt.start
        (l.dropWhile Scan.isSpaceC)).2.1 = true
    · have hsf : (Scan.runTok Scan.stepI Scan.ISt.start
          (l.dropWhile Scan.isSpaceC)).2.1 = Scan.ISt.dig := by
        rcases hx : (Scan.runTok Scan.stepI Scan.ISt.start
            (l.dropWhile Scan.isSpaceC)).2.1 with _ | _ | _ <;>
          simp [hx, Scan.matchI] at hok <;> rfl
      rw [if_pos hok] at h
      have hrest : (Scan.runTok Scan.stepI Scan.ISt.start
          (l.dropWhile Scan.isSpaceC)).2.2 = [] := by
        have := Option.some.inj h
        exact congrArg Prod.snd this
      have hitem : (Scan.runTok Scan.stepI Scan.ISt.start
          (l.dropWhile Scan.isSpaceC)).1 ≠ [] := by
        intro hit
        have := Scan.runTok_item_nil Scan.stepI (l.dropWhile Scan.isSpaceC)
          Scan.ISt.start hit
        rw [this] at hsf
        exact Scan.ISt.noConfusion hsf
      have hdec := Scan.runTok_decomp Scan.stepI (l.dropWhile Scan.isSpaceC) Scan.ISt.start
      have hdne : l.dropWhile Scan.isSpaceC ≠ [] := by
        intro hz
        rw [hz] at hdec hitem
        have : (Scan.runTok Scan.stepI Scan.ISt.start ([] : List Char)).1 = [] := rfl
        exact hitem this
      rcases hd : l.dropWhile Scan.isSpaceC with _ | ⟨a, t⟩
      · exact absurd hd hdne
      · rw [hd] at hrest
        have hrun := Scan.runTok_append_end Scan.stepI (a :: t) Scan.ISt.start s hrest
        rw [List.cons_append] at hrun
        have hdig : (Scan.runTok Scan.stepI (Scan.runTok Scan.stepI Scan.ISt.start
            (a :: t)).2.1 s).2.1 = Scan.ISt.dig := by
          rw [hd] at hsf
          exact Scan.runTok_dig s _ hsf
        rw [Scan.convInt, Scan.convA, Scan.dropWhile_append_cons Scan.isSpaceC l a t s hd,
          Scan.convA0, hrun]
        simp only [hdig, Scan.matchI, if_pos]
        exact ⟨_, _, rfl⟩
    · rw [if_neg hok] at h
      exact Option.noConfusion h

/-- Scanning empty input assigns nothing and leaves nothing. -/
theorem Scan.scanT_nil : ∀ ts : List Scan.Tok, Scan.scanT ts [] = ([], []) := by
  intro ts
  cases ts with
  | nil => rfl
  | cons t ts => cases t <;> rfl

/-- The number of assigned values never exceeds the number of conversions
of the format: `sscanf`'s result `≠ n` means fewer than `n` fields. -/
theorem Scan.scanT_len_le : ∀ (ts : List Scan.Tok) (l : List Char),
    (Scan.scanT ts l).1.length ≤ Scan.numConvs ts := by
  intro ts
  induction ts with
  | nil => intro l; simp [Scan.scanT, Scan.numConvs]
  | cons t ts ih =>
    intro l
    cases t with
    | lit c =>
      cases l with
      | nil => simp [Scan.scanT, Scan.numConvs]
      | cons a r =>
        by_cases h : a = c
        · simpa [Scan.scanT, h, Scan.numConvs] using ih r
        · simp [Scan.scanT, h, Scan.numConvs]
    | tint =>
      cases h : Scan.convInt l with
      | none => simp [Scan.scanT, h, Scan.numConvs]
      | some vr =>
        simp only [Scan.scanT, h, Scan.numConvs, List.length_cons]
        exact Nat.succ_le_succ (ih vr.2)
    | tflt =>
      cases h : Scan.convFlt l with
      | none => simp [Scan.scanT, h, Scan.numConvs]
      | some vr =>
        simp only [Scan.scanT, h, Scan.numConvs, List.length_cons]
        exact Nat.succ_le_succ (ih vr.2)

/-- The kinds of the assigned values follow the format's conversion
kinds. -/
theorem Scan.scanT_kinds : ∀ (ts : List Scan.Tok) (l : List Char),
    (Scan.scanT ts l).1.map Scan.kindOf =
      (Scan.convKinds ts).take (Scan.scanT ts l).1.length := by
  intro ts
  induction ts with
  | nil => intro l; simp [Scan.scanT]
  | cons t ts ih =>
    intro l
    cases t with
    | lit c =>
      cases l with
      | nil => simp [Scan.scanT]
      | cons a r =>
        by_cases h : a = c
        · simpa [Scan.scanT, h, Scan.convKinds] using ih r
        · simp [Scan.scanT, h]
    | tint =>
      cases h : Scan.convInt l with
      | none => simp [Scan.scanT, h]
      | some vr =>
        simp only [Scan.scanT, h, Scan.convKinds, List.map_cons, List.length_cons,
          List.take_succ_cons, Scan.kindOf]
        rw [ih vr.2]
    | tflt =>
      cases h : Scan.convFlt l with
      | none => simp [Scan.scanT, h]
      | some vr =>
        simp only [Scan.scanT, h, Scan.convKinds, List.map_cons, List.length_cons,
          List.take_succ_cons, Scan.kindOf]
        rw [ih vr.2]

/-- A fully successful scan that stopped at a character is unaffected by
appending further text: the same values are assigned and the stop point
is unchanged. -/
theorem Scan.scanT_append_track : ∀ (ts : List Scan.Tok) (l s : List Char)
    (vs : List Scan.CVal) (c : Char) (r : List Char),
    Scan.scanT ts l = (vs, c :: r) → vs.length = Scan.numConvs ts →
    Scan.scanT ts (l ++ s) = (vs, c :: (r ++ s)) := by
  intro ts
  induction ts with
  | nil =>
    intro l s vs c r h hfull
    rw [Scan.scanT] at h
    have h1 : ([] : List Scan.CVal) = vs := congrArg Prod.fst h
    have h2 : l = c :: r := congrArg Prod.snd h
    subst h2
    rw [← h1, List.cons_append, Scan.scanT]
  | cons t ts ih =>
    intro l s vs c r h hfull
    cases t with
    | lit ch =>
      cases l with
      | nil =>
        rw [Scan.scanT] at h
        have h2 : ([] : List Char) = c :: r := congrArg Prod.snd h
        exact absurd h2 (by simp)
      | cons a l2 =>
        by_cases ha : a = ch
        · subst ha
          rw [Scan.scanT, if_pos rfl] at h
          rw [List.cons_append, Scan.scanT, if_pos rfl]
          exact ih l2 s vs c r h hfull
        · rw [Scan.scanT, if_neg ha] at h
          have h1 : ([] : List Scan.CVal) = vs := congrArg Prod.fst h
          have h2 : a :: l2 = c :: r := congrArg Prod.snd h
          injection h2 with h2a h2b
          subst h2a
          subst h2b
          rw [List.cons_append, Scan.scanT, if_neg ha, ← h1]
    | tint =>
      cases hc : Scan.convInt l with
      | none =>
        rw [Scan.scanT, hc] at h
        have h1 : ([] : List Scan.CVal) = vs := congrArg Prod.fst h
        rw [← h1] at hfull
        simp [Scan.numConvs] at hfull
      | some vr =>
        rw [Scan.scanT, hc] at h
        have h1 : Scan.CVal.i vr.1 :: (Scan.scanT ts vr.2).1 = vs := congrArg Prod.fst h
        have h2 : (Scan.scanT ts vr.2).2 = c :: r := congrArg Prod.snd h
        have hlen : (Scan.scanT ts vr.2).1.length = Scan.numConvs ts := by
          rw [← h1] at hfull
          simpa [Scan.numConvs] using hfull
        rcases hr2 : vr.2 with _ | ⟨c2, r2⟩
        · rw [hr2, Scan.scanT_nil ts] at h2
          exact absurd h2 (by simp)
        · have htr := ih vr.2 s (Scan.scanT ts vr.2).1 c r
            (by rw [Prod.mk.injEq]; exact ⟨rfl, h2⟩) hlen
          rw [hr2, List.cons_append] at htr
          have hc2 : Scan.convInt (l ++ s) = some (vr.1, c2 :: (r2 ++ s)) :=
            Scan.convA_append_cons Scan.stepI Scan.ISt.start Scan.matchI Scan.intVal
              l s vr.1 c2 r2 (by rw [← hr2]; exact hc)
          rw [← h1]
          simp only [Scan.scanT, hc2, htr]
          rw [hr2]
    | tflt =>
      cases hc : Scan.convFlt l with
      | none =>
        rw [Scan.scanT, hc] at h
        have h1 : ([] : List Scan.CVal) = vs := congrArg Prod.fst h
        rw [← h1] at hfull
        simp [Scan.numConvs] at hfull
      | some vr =>
        rw [Scan.scanT, hc] at h
        have h1 : Scan.CVal.f vr.1 :: (Scan.scanT ts vr.2).1 = vs := congrArg Prod.fst h
        have h2 : (Scan.scanT ts vr.2).2 = c :: r := congrArg Prod.snd h
        have hlen : (Scan.scanT ts vr.2).1.length = Scan.numConvs ts := by
          rw [← h1] at hfull
          simpa [Scan.numConvs] using hfull
        rcases hr2 : vr.2 with _ | ⟨c2, r2⟩
        · rw [hr2, Scan.scanT_nil ts] at h2
          exact absurd h2 (by simp)
        · have htr := ih vr.2 s (Scan.scanT ts vr.2).1 c r
            (by rw [Prod.mk.injEq]; exact ⟨rfl, h2⟩) hlen
          rw [hr2, List.cons_append] at htr
          have hc2 : Scan.convFlt (l ++ s) = some (vr.1, c2 :: (r2 ++ s)) :=
            Scan.convA_append_cons Scan.stepF Scan.FSt.start Scan.matchF Scan.fltVal
              l s vr.1 c2 r2 (by rw [← hr2]; exact hc)
          rw [← h1]
          simp only [Scan.scanT, hc2, htr]
          rw [hr2]

/-- In a float-guarded format, a fully successful scan stays fully
successful on any extension of the input: within the format, every
conversion's item is delimited inside the scanned prefix, and a final
`%d` item can only be extended by further digits, which keep it
matching. -/
theorem Scan.scanT_append_full : ∀ ts : List Scan.Tok, Scan.fltGuarded ts = true →
    ∀ l s : List Char, (Scan.scanT ts l).1.length = Scan.numConvs ts →
    (Scan.scanT ts (l ++ s)).1.length = Scan.numConvs ts := by
  intro ts
  induction ts with
  | nil => intro _ l s _; simp [Scan.scanT, Scan.numConvs]
  | cons t ts ih =>
    intro hg l s hfull
    cases t with
    | lit ch =>
      have hg2 : Scan.fltGuarded ts = true := by simpa [Scan.fltGuarded] using hg
      cases l with
      | nil =>
        rw [Scan.scanT_nil] at hfull
        have h0 : Scan.numConvs (Scan.Tok.lit ch :: ts) = 0 := by simpa using hfull.symm
        rw [h0]
        have := Scan.scanT_len_le (Scan.Tok.lit ch :: ts) (([] : List Char) ++ s)
        omega
      | cons a l2 =>
        by_cases ha : a = ch
        · subst ha
          rw [Scan.scanT, if_pos rfl] at hfull
          rw [List.cons_append, Scan.scanT, if_pos rfl]
          exact ih hg2 l2 s hfull
        · rw [Scan.scanT, if_neg ha] at hfull
          have h0 : Scan.numConvs (Scan.Tok.lit ch :: ts) = 0 := by simpa using hfull.symm
          rw [h0]
          have := Scan.scanT_len_le (Scan.Tok.lit ch :: ts) (a :: l2 ++ s)
          omega
    | tint =>
      have hg2 : Scan.fltGuarded ts = true := by simpa [Scan.fltGuarded] using hg
      cases hc : Scan.convInt l with
      | none =>
        rw [Scan.scanT, hc] at hfull
        simp [Scan.numConvs] at hfull
      | some vr =>
        rw [Scan.scanT, hc] at hfull
        simp only [List.length_cons, Scan.numConvs] at hfull
        have hlen : (Scan.scanT ts vr.2).1.length = Scan.numConvs ts := by omega
        rcases hr2 : vr.2 with _ | ⟨c2, r2⟩
        · rw [hr2, Scan.scanT_nil ts] at hlen
          have h0 : Scan.numConvs ts = 0 := by simpa using hlen.symm
          obtain ⟨v2, r2x, hc2⟩ := Scan.convInt_append l s vr.1 vr.2 hc
          simp only [Scan.scanT, hc2, List.length_cons, Scan.numConvs]
          have := Scan.scanT_len_le ts r2x
          omega
        · have hc2 : Scan.convInt (l ++ s) = some (vr.1, c2 :: (r2 ++ s)) :=
            Scan.convA_append_cons Scan.stepI Scan.ISt.start Scan.matchI Scan.intVal
              l s vr.1 c2 r2 (by rw [← hr2]; exact hc)
          have hih := ih hg2 vr.2 s hlen
          rw [hr2, List.cons_append] at hih
          simp only [Scan.scanT, hc2, List.length_cons, Scan.numConvs]
          omega
    | tflt =>
      have hg2 : Scan.fltGuarded ts = true := by
        simp [Scan.fltGuarded, Bool.and_eq_true] at hg
        exact hg.2
      have hgn : Scan.numConvs ts ≠ 0 := by
        simp [Scan.fltGuarded, Bool.and_eq_true] at hg
        simpa using hg.1
      cases hc : Scan.convFlt l with
      | none =>
        rw [Scan.scanT, hc] at hfull
        simp [Scan.numConvs] at hfull
      | some vr =>
        rw [Scan.scanT, hc] at hfull
        simp only [List.length_cons, Scan.numConvs] at hfull
        have hlen : (Scan.scanT ts vr.2).1.length = Scan.numConvs ts := by omega
        rcases hr2 : vr.2 with _ | ⟨c2, r2⟩
        · rw [hr2, Scan.scanT_nil ts] at hlen
          exact absurd hlen.symm (by simpa using hgn)
        · have hc2 : Scan.convFlt (l ++ s) = some (vr.1, c2 :: (r2 ++ s)) :=
            Scan.convA_append_cons Scan.stepF Scan.FSt.start Scan.matchF Scan.fltVal
              l s vr.1 c2 r2 (by rw [← hr2]; exact hc)
          have hih := ih hg2 vr.2 s hlen
          rw [hr2, List.cons_append] at hih
          simp only [Scan.scanT, hc2, List.length_cons, Scan.numConvs]
          omega

/-- C10: acceptance is not monotone under appending for the sensor
format: the 18-field prefix `0,0,...,0,1` scans fully, but appending
`e,` extends the 18th `%f` item to `1e`, which is only a prefix of a
matching sequence and not itself matching, so the conversion fails, the
scan assigns 17 fields, and the pipeline rejects the line as a
passthrough comment. -/
theorem C10_counterexample :
    (Scan.scanT Scan.sensorFmt snsP).1.length = 18 ∧
    (Scan.scanT Scan.sensorFmt (snsP ++ ['e', ','])).1.length = 17 ∧
    ((17 : Nat) = 18 → False) ∧
    (Hsensor.lineStep 10 Hsensor.initSt (snsP ++ ['e', ','])).1 =
      [Hsensor.Out.comment (snsP ++ ['e', ','])] := by
  decide

/-- C10 (amended): in both pipelines the scan never assigns more than the
expected field count, so the acceptance tests `!= 11` and `!= 18` reject
exactly the short parses.  For the GPS format, whose final conversion is
`%d`, a line any prefix of which scans into all 11 fields is accepted
whatever follows (a final integer item can only grow by digits and stays
matching).  For the sensor format, whose final conversion is `%f`, the
same holds provided the successful parse of the prefix stops at some
character of the prefix (its rest is nonempty), so that the 18th float
item is already delimited; the values assigned are then unchanged. -/
theorem C10_amended :
    (∀ l : List Char, (Scan.scanT Scan.gpsFmt l).1.length ≤ 11) ∧
    (∀ l : List Char, (Scan.scanT Scan.sensorFmt l).1.length ≤ 18) ∧
    (∀ p s : List Char, (Scan.scanT Scan.gpsFmt p).1.length = 11 →
      (Scan.scanT Scan.gpsFmt (p ++ s)).1.length = 11) ∧
    (∀ (p s : List Char) (vs : List Scan.CVal) (c : Char) (r : List Char),
      Scan.scanT Scan.sensorFmt p = (vs, c :: r) → vs.length = 18 →
      Scan.scanT Scan.sensorFmt (p ++ s) = (vs, c :: (r ++ s))) := by
  refine ⟨?_, ?_, ?_, ?_⟩
  · intro l
    have h := Scan.scanT_len_le Scan.gpsFmt l
    exact le_trans h (by decide)
  · intro l
    have h := Scan.scanT_len_le Scan.sensorFmt l
    exact le_trans h (by decide)
  · intro p s h
    have h2 := Scan.scanT_append_full Scan.gpsFmt (by decide) p s
      (by rw [h]; decide)
    rw [h2]
    decide
  · intro p s vs c r h hf
    exact Scan.scanT_append_track Scan.sensorFmt p s vs c r h (by rw [hf]; decide)

/-- Witness for the amended C10 theorem: a fully parsed GPS line stays
accepted with arbitrary trailing text appended. -/
theorem C10_amended_witness :
    (Scan.scanT Scan.gpsFmt gpsL1).1.length = 11 ∧
    (Scan.scanT Scan.gpsFmt (gpsL1 ++ ['x', 'y'])).1.length = 11 :=
  ⟨by decide, C10_amended.2.2.1 gpsL1 ['x', 'y'] (by decide)⟩

/-- C8: in both pipelines a line is treated as a data line exactly when
its first character is a decimal digit; any non-data line, and any data
line that scans into fewer than the expected field count (the scan can
never yield more, so the code's `!= n` test means exactly `< n`), is
emitted as a passthrough comment carrying the original line, and the
loop then simply continues with the remaining lines — no line is
fatal. -/
theorem C8_theorem :
    (∀ (c : Char) (r : List Char), Scan.dataLine (c :: r) = c.isDigit) ∧
    (Scan.dataLine [] = false) ∧
    (∀ l : List Char, (Scan.scanT Scan.gpsFmt l).1.length ≤ 11) ∧
    (∀ l : List Char, (Scan.scanT Scan.sensorFmt l).1.length ≤ 18) ∧
    (∀ (avgSecs : Fl) (minSats : Int) (st : Hgps.St) (l : List Char),
      (Scan.dataLine l = false ∨ (Scan.scanT Scan.gpsFmt l).1.length < 11) →
      (Hgps.lineStep avgSecs minSats st l).1 = [Hgps.Out.comment l]) ∧
    (∀ (avgSecs : Fl) (st : Hsensor.St) (l : List Char),
      (Scan.dataLine l = false ∨ (Scan.scanT Scan.sensorFmt l).1.length < 18) →
      (Hsensor.lineStep avgSecs st l).1 = [Hsensor.Out.comment l]) ∧
    (∀ (avgSecs : Fl) (minSats : Int) (st : Hgps.St) (l : List Char) (ls : List (List Char)),
      (Hgps.runLinesAux avgSecs minSats st (l :: ls)).1 =
        (Hgps.lineStep avgSecs minSats st l).1 ++
          (Hgps.runLinesAux avgSecs minSats (Hgps.lineStep avgSecs minSats st l).2 ls).1) ∧
    (∀ (avgSecs : Fl) (st : Hsensor.St) (l : List Char) (ls : List (List Char)),
      (Hsensor.runLinesAux avgSecs st (l :: ls)).1 =
        (Hsensor.lineStep avgSecs st l).1 ++
          (Hsensor.runLinesAux avgSecs (Hsensor.lineStep avgSecs st l).2 ls).1) := by
  refine ⟨fun c r => rfl, rfl, ?_, ?_, ?_, ?_, fun _ _ _ _ _ => rfl, fun _ _ _ _ => rfl⟩
  · intro l
    exact le_trans (Scan.scanT_len_le Scan.gpsFmt l) (by decide)
  · intro l
    exact le_trans (Scan.scanT_len_le Scan.sensorFmt l) (by decide)
  · intro avgSecs minSats st l h
    by_cases hd : Scan.dataLine l = false
    · simp [Hgps.lineStep, hd]
    · have hd2 : Scan.dataLine l = true := by simpa using hd
      rcases h with h | h
      · exact absurd h hd
      · have hne : (Hgps.scanVals l).length ≠ 11 := by
          rw [Hgps.scanVals]
          omega
        simp [Hgps.lineStep, hd2, hne]
  · intro avgSecs st l h
    by_cases hd : Scan.dataLine l = false
    · simp [Hsensor.lineStep, hd]
    · have hd2 : Scan.dataLine l = true := by simpa using hd
      rcases h with h | h
      · exact absurd h hd
      · have hne : (Hsensor.scanVals l).length ≠ 18 := by
          rw [Hsensor.scanVals]
          omega
        simp [Hsensor.lineStep, hd2, hne]

/-- Witness for C8 on a concrete header line in both pipelines. -/
theorem C8_witness :
    Scan.dataLine ['#', ' ', 'h'] = false ∧
    (Hgps.lineStep 10 0 Hgps.initSt ['#', ' ', 'h']).1 =
      [Hgps.Out.comment ['#', ' ', 'h']] ∧
    (Hsensor.lineStep 10 Hsensor.initSt ['#', ' ', 'h']).1 =
      [Hsensor.Out.comment ['#', ' ', 'h']] :=
  ⟨by decide,
   C8_theorem.2.2.2.2.1 10 0 Hgps.initSt ['#', ' ', 'h'] (Or.inl (by decide)),
   C8_theorem.2.2.2.2.2.1 10 Hsensor.initSt ['#', ' ', 'h'] (Or.inl (by decide))⟩

/-- C7: in both pipelines `showAverage` emits something exactly when at
least one record was accumulated; whenever it emits (and so divides by
the count), the count is at least 1 and in particular nonzero, so the
divisions in the averaging core are always guarded. -/
theorem C7_theorem :
    (∀ (navg : Int) (raw avg : Hgps.GPSDATA),
      ((Hgps.showAverage navg raw avg).isSome ↔ 1 ≤ navg) ∧
      (∀ a : Hgps.AvgLine, Hgps.showAverage navg raw avg = some a →
        1 ≤ navg ∧ navg ≠ 0)) ∧
    (∀ (navg : Int) (avg : Hsensor.SENSORDATA),
      ((Hsensor.showAverage navg avg).isSome ↔ 1 ≤ navg) ∧
      (∀ a : Hsensor.SENSORDATA, Hsensor.showAverage navg avg = some a →
        1 ≤ navg ∧ navg ≠ 0)) := by
  constructor
  · intro navg raw avg
    by_cases h : navg < 1
    · refine ⟨by simp [Hgps.showAverage, h], ?_⟩
      intro a ha
      rw [Hgps.showAverage, if_pos h] at ha
      exact Option.noConfusion ha
    · have h1 : 1 ≤ navg := by omega
      refine ⟨by simp [Hgps.showAverage, h, h1], ?_⟩
      intro a _
      omega
  · intro navg avg
    by_cases h : navg < 1
    · refine ⟨by simp [Hsensor.showAverage, h], ?_⟩
      intro a ha
      rw [Hsensor.showAverage, if_pos h] at ha
      exact Option.noConfusion ha
    · have h1 : 1 ≤ navg := by omega
      refine ⟨by simp [Hsensor.showAverage, h, h1], ?_⟩
      intro a _
      omega

/-- Witness for C7: a flush of a one-record window divides by the
count 1, which the theorem certifies to be at least 1 and nonzero. -/
theorem C7_witness :
    ((1 : Int) ≤ 1 ∧ (1 : Int) ≠ 0) ∧
    ((Hsensor.showAverage 1 Hsensor.s0).isSome ↔ 1 ≤ (1 : Int)) :=
  ⟨(C7_theorem.1 1 Hgps.d0 Hgps.d0).2 (Hgps.mkAvg 1 Hgps.d0 Hgps.d0) rfl,
   (C7_theorem.2 1 Hsensor.s0).1⟩

/-- A value list whose kinds follow the GPS format consists of exactly
the 11 constructors in format order. -/
theorem Hgps.gpsShape (vs : List Scan.CVal)
    (h : vs.map Scan.kindOf = [false, true, true, true, true, true, true, false, false, false, true]) :
    ∃ q0 n1 n2 n3 n4 n5 n6 q7 q8 q9 n10,
      vs = [Scan.CVal.f q0, Scan.CVal.i n1, Scan.CVal.i n2, Scan.CVal.i n3, Scan.CVal.i n4, Scan.CVal.i n5, Scan.CVal.i n6, Scan.CVal.f q7, Scan.CVal.f q8, Scan.CVal.f q9, Scan.CVal.i n10] := by
  rcases vs with _ | ⟨v0, vs⟩
  · simp at h
  rcases v0 with n0 | q0
  case i => simp [Scan.kindOf] at h
  rw [List.map_cons] at h
  have hh := List.cons.inj h
  replace h := hh.2
  rcases vs with _ | ⟨v1, vs⟩
  · simp at h
  rcases v1 with n1 | q1
  case f => simp [Scan.kindOf] at h
  rw [List.map_cons] at h
  have hh := List.cons.inj h
  replace h := hh.2
  rcases vs with _ | ⟨v2, vs⟩
  · simp at h
  rcases v2 with n2 | q2
  case f => simp [Scan.kindOf] at h
  rw [List.map_cons] at h
  have hh := List.cons.inj h
  replace h := hh.2
  rcases vs with _ | ⟨v3, vs⟩
  · simp at h
  rcases v3 with n3 | q3
  case f => simp [Scan.kindOf] at h
  rw [List.map_cons] at h
  have hh := List.cons.inj h
  replace h := hh.2
  rcases vs with _ | ⟨v4, vs⟩
  · simp at h
  rcases v4 with n4 | q4
  case f => simp [Scan.kindOf] at h
  rw [List.map_cons] at h
  have hh := List.cons.inj h
  replace h := hh.2
  rcases vs with _ | ⟨v5, vs⟩
  · simp at h
  rcases v5 with n5 | q5
  case f => simp [Scan.kindOf] at h
  rw [List.map_cons] at h
  have hh := List.cons.inj h
  replace h := hh.2
  rcases vs with _ | ⟨v6, vs⟩
  · simp at h
  rcases v6 with n6 | q6
  case f => simp [Scan.kindOf] at h
  rw [List.map_cons] at h
  have hh := List.cons.inj h
  replace h := hh.2
  rcases vs with _ | ⟨v7, vs⟩
  · simp at h
  rcases v7 with n7 | q7
  case i => simp [Scan.kindOf] at h
  rw [List.map_cons] at h
  have hh := List.cons.inj h
  replace h := hh.2
  rcases vs with _ | ⟨v8, vs⟩
  · simp at h
  rcases v8 with n8 | q8
  case i => simp [Scan.kindOf] at h
  rw [List.map_cons] at h
  have hh := List.cons.inj h
  replace h := hh.2
  rcases vs with _ | ⟨v9, vs⟩
  · simp at h
  rcases v9 with n9 | q9
  case i => simp [Scan.kindOf] at h
  rw [List.map_cons] at h
  have hh := List.cons.inj h
  replace h := hh.2
  rcases vs with _ | ⟨v10, vs⟩
  · simp at h
  rcases v10 with n10 | q10
  case f => simp [Scan.kindOf] at h
  rw [List.map_cons] at h
  have hh := List.cons.inj h
  replace h := hh.2
  rcases vs with _ | ⟨v11, vs⟩
  case cons => simp at h
  exact ⟨q0, n1, n2, n3, n4, n5, n6, q7, q8, q9, n10, rfl⟩

/-- A value list whose kinds follow the sensor format consists of
exactly 18 float values. -/
theorem Hsensor.snsShape (vs : List Scan.CVal)
    (h : vs.map Scan.kindOf = [false, false, false, false, false, false, false, false, false, false, false, false, false, false, false, false, false, false]) :
    ∃ q0 q1 q2 q3 q4 q5 q6 q7 q8 q9 q10 q11 q12 q13 q14 q15 q16 q17,
      vs = [Scan.CVal.f q0, Scan.CVal.f q1, Scan.CVal.f q2, Scan.CVal.f q3, Scan.CVal.f q4, Scan.CVal.f q5, Scan.CVal.f q6, Scan.CVal.f q7, Scan.CVal.f q8, Scan.CVal.f q9, Scan.CVal.f q10, Scan.CVal.f q11, Scan.CVal.f q12, Scan.CVal.f q13, Scan.CVal.f q14, Scan.CVal.f q15, Scan.CVal.f q16, Scan.CVal.f q17] := by
  rcases vs with _ | ⟨v0, vs⟩
  · simp at h
  rcases v0 with n0 | q0
  case i => simp [Scan.kindOf] at h
  rw [List.map_cons] at h
  have hh := List.cons.inj h
  replace h := hh.2
  rcases vs with _ | ⟨v1, vs⟩
  · simp at h
  rcases v1 with n1 | q1
  case i => simp [Scan.kindOf] at h
  rw [List.map_cons] at h
  have hh := List.cons.inj h
  replace h := hh.2
  rcases vs with _ | ⟨v2, vs⟩
  · simp at h
  rcases v2 with n2 | q2
  case i => simp [Scan.kindOf] at h
  rw [List.map_cons] at h
  have hh := List.cons.inj h
  replace h := hh.2
  rcases vs with _ | ⟨v3, vs⟩
  · simp at h
  rcases v3 with n3 | q3
  case i => simp [Scan.kindOf] at h
  rw [List.map_cons] at h
  have hh := List.cons.inj h
  replace h := hh.2
  rcases vs with _ | ⟨v4, vs⟩
  · simp at h
  rcases v4 with n4 | q4
  case i => simp [Scan.kindOf] at h
  rw [List.map_cons] at h
  have hh := List.cons.inj h
  replace h := hh.2
  rcases vs with _ | ⟨v5, vs⟩
  · simp at h
  rcases v5 with n5 | q5
  case i => simp [Scan.kindOf] at h
  rw [List.map_cons] at h
  have hh := List.cons.inj h
  replace h := hh.2
  rcases vs with _ | ⟨v6, vs⟩
  · simp at h
  rcases v6 with n6 | q6
  case i => simp [Scan.kindOf] at h
  rw [List.map_cons] at h
  have hh := List.cons.inj h
  replace h := hh.2
  rcases vs with _ | ⟨v7, vs⟩
  · simp at h
  rcases v7 with n7 | q7
  case i => simp [Scan.kindOf] at h
  rw [List.map_cons] at h
  have hh := List.cons.inj h
  replace h := hh.2
  rcases vs with _ | ⟨v8, vs⟩
  · simp at h
  rcases v8 with n8 | q8
  case i => simp [Scan.kindOf] at h
  rw [List.map_cons] at h
  have hh := List.cons.inj h
  replace h := hh.2
  rcases vs with _ | ⟨v9, vs⟩
  · simp at h
  rcases v9 with n9 | q9
  case i => simp [Scan.kindOf] at h
  rw [List.map_cons] at h
  have hh := List.cons.inj h
  replace h := hh.2
  rcases vs with _ | ⟨v10, vs⟩
  · simp at h
  rcases v10 with n10 | q10
  case i => simp [Scan.kindOf] at h
  rw [List.map_cons] at h
  have hh := List.cons.inj h
  replace h := hh.2
  rcases vs with _ | ⟨v11, vs⟩
  · simp at h
  rcases v11 with n11 | q11
  case i => simp [Scan.kindOf] at h
  rw [List.map_cons] at h
  have hh := List.cons.inj h
  replace h := hh.2
  rcases vs with _ | ⟨v12, vs⟩
  · simp at h
  rcases v12 with n12 | q12
  case i => simp [Scan.kindOf] at h
  rw [List.map_cons] at h
  have hh := List.cons.inj h
  replace h := hh.2
  rcases vs with _ | ⟨v13, vs⟩
  · simp at h
  rcases v13 with n13 | q13
  case i => simp [Scan.kindOf] at h
  rw [List.map_cons] at h
  have hh := List.cons.inj h
  replace h := hh.2
  rcases vs with _ | ⟨v14, vs⟩
  · simp at h
  rcases v14 with n14 | q14
  case i => simp [Scan.kindOf] at h
  rw [List.map_cons] at h
  have hh := List.cons.inj h
  replace h := hh.2
  rcases vs with _ | ⟨v15, vs⟩
  · simp at h
  rcases v15 with n15 | q15
  case i => simp [Scan.kindOf] at h
  rw [List.map_cons] at h
  have hh := List.cons.inj h
  replace h := hh.2
  rcases vs with _ | ⟨v16, vs⟩
  · simp at h
  rcases v16 with n16 | q16
  case i => simp [Scan.kindOf] at h
  rw [List.map_cons] at h
  have hh := List.cons.inj h
  replace h := hh.2
  rcases vs with _ | ⟨v17, vs⟩
  · simp at h
  rcases v17 with n17 | q17
  case i => simp [Scan.kindOf] at h
  rw [List.map_cons] at h
  have hh := List.cons.inj h
  replace h := hh.2
  rcases vs with _ | ⟨v18, vs⟩
  case cons => simp at h
  exact ⟨q0, q1, q2, q3, q4, q5, q6, q7, q8, q9, q10, q11, q12, q13, q14, q15, q16, q17, rfl⟩

/-- When a GPS line scans into all 11 fields, the kinds of the assigned
values follow the format. -/
theorem Hgps.scanVals_shape (l : List Char) (h : (Hgps.scanVals l).length = 11) :
    (Hgps.scanVals l).map Scan.kindOf =
      [false, true, true, true, true, true, true, false, false, false, true] := by
  have hk := Scan.scanT_kinds Scan.gpsFmt l
  rw [Hgps.scanVals] at h ⊢
  rw [hk, h]
  decide

/-- When a sensor line scans into all 18 fields, all assigned values are
floats. -/
theorem Hsensor.scanVals_shape_sns (l : List Char) (h : (Hsensor.scanVals l).length = 18) :
    (Hsensor.scanVals l).map Scan.kindOf =
      [false, false, false, false, false, false, false, false, false,
       false, false, false, false, false, false, false, false, false] := by
  have hk := Scan.scanT_kinds Scan.sensorFmt l
  rw [Hsensor.scanVals] at h ⊢
  rw [hk, h]
  decide

/-- A full assignment of 11 GPS values overwrites every printed field, so
the printed record (and the satellite count used by the filter) does not
depend on the previous contents of the scan buffer. -/
theorem Hgps.applyVals_indep (r r2 : Hgps.GPSDATA) (vs : List Scan.CVal)
    (h : vs.map Scan.kindOf =
      [false, true, true, true, true, true, true, false, false, false, true]) :
    Hgps.printRaw (Hgps.normYear (Hgps.applyVals r vs)) =
      Hgps.printRaw (Hgps.normYear (Hgps.applyVals r2 vs)) ∧
    (Hgps.applyVals r vs).nsats = (Hgps.applyVals r2 vs).nsats := by
  obtain ⟨n1, n2, n3, n4, n5, n6, n10, q0, q7, q8, q9, rfl⟩ := Hgps.gpsShape vs h
  exact ⟨rfl, rfl⟩

/-- A full assignment of 18 sensor values overwrites every field of the
record. -/
theorem Hsensor.applyVals_indep_sns (r r2 : Hsensor.SENSORDATA) (vs : List Scan.CVal)
    (h : vs.map Scan.kindOf =
      [false, false, false, false, false, false, false, false, false,
       false, false, false, false, false, false, false, false, false]) :
    Hsensor.applyVals r vs = Hsensor.applyVals r2 vs := by
  obtain ⟨q0, q1, q2, q3, q4, q5, q6, q7, q8, q9, q10, q11, q12, q13, q14,
    q15, q16, q17, rfl⟩ := Hsensor.snsShape vs h
  rfl

theorem Fl.not_le_zero_of_zero_lt (a : Fl) (h : (0 : Fl) < a) : ¬ a ≤ 0 := by
  have h1 := (Fl.lt_iff 0 a).mp h
  intro h2
  have h3 := (Fl.le_iff a 0).mp h2
  rw [Fl.zero_num, Fl.zero_den] at h1 h3
  simp only [Nat.cast_one, mul_one, zero_mul] at h1 h3
  omega

theorem Fl.lt_zero_or_zero_le (a : Fl) : a < 0 ∨ (0 : Fl) ≤ a := by
  rw [Fl.lt_iff, Fl.le_iff, Fl.zero_num, Fl.zero_den]
  simp only [Nat.cast_one, mul_one, zero_mul]
  omega

/-- With averaging disabled, one processed line emits exactly its
line-determined output and leaves the accumulator untouched (only the
scan buffer may change). -/
theorem Hgps.lineStep_noavg (avgSecs : Fl) (minSats : Int) (h : avgSecs ≤ 0)
    (st : Hgps.St) (l : List Char) :
    (Hgps.lineStep avgSecs minSats st l).1 = [Hgps.pureLine minSats l] ∧
    (Hgps.lineStep avgSecs minSats st l).2.t0 = st.t0 ∧
    (Hgps.lineStep avgSecs minSats st l).2.navg = st.navg ∧
    (Hgps.lineStep avgSecs minSats st l).2.avg = st.avg := by
  by_cases hd : Scan.dataLine l = false
  · simp [Hgps.lineStep, Hgps.pureLine, hd]
  · have hd2 : Scan.dataLine l = true := by simpa using hd
    by_cases hn : (Hgps.scanVals l).length = 11
    case neg =>
      simp [Hgps.lineStep, Hgps.pureLine, hd2, hn]
    case pos =>
      have hind := Hgps.applyVals_indep st.raw Hgps.d0 (Hgps.scanVals l)
        (Hgps.scanVals_shape l hn)
      by_cases hs : (Hgps.applyVals st.raw (Hgps.scanVals l)).nsats < minSats
      · have hs2 : (Hgps.applyVals Hgps.d0 (Hgps.scanVals l)).nsats < minSats := by
          rw [← hind.2]
          exact hs
        simp [Hgps.lineStep, Hgps.pureLine, hd2, hn, hs, hs2]
      · have hs2 : ¬ (Hgps.applyVals Hgps.d0 (Hgps.scanVals l)).nsats < minSats := by
          rw [← hind.2]
          exact hs
        simp [Hgps.lineStep, Hgps.pureLine, hd2, hn, hs, hs2, Hgps.handle, h, hind.1]

/-- Sensor version of `lineStep_noavg`. -/
theorem Hsensor.lineStep_noavg_sns (avgSecs : Fl) (h : avgSecs ≤ 0)
    (st : Hsensor.St) (l : List Char) :
    (Hsensor.lineStep avgSecs st l).1 = [Hsensor.pureLine l] ∧
    (Hsensor.lineStep avgSecs st l).2.t0 = st.t0 ∧
    (Hsensor.lineStep avgSecs st l).2.navg = st.navg ∧
    (Hsensor.lineStep avgSecs st l).2.avg = st.avg := by
  by_cases hd : Scan.dataLine l = false
  · simp [Hsensor.lineStep, Hsensor.pureLine, hd]
  · have hd2 : Scan.dataLine l = true := by simpa using hd
    by_cases hn : (Hsensor.scanVals l).length = 18
    case neg =>
      simp [Hsensor.lineStep, Hsensor.pureLine, hd2, hn]
    case pos =>
      have hind := Hsensor.applyVals_indep_sns st.raw Hsensor.s0 (Hsensor.scanVals l)
        (Hsensor.scanVals_shape_sns l hn)
      simp [Hsensor.lineStep, Hsensor.pureLine, hd2, hn, Hsensor.handle, h, hind]

/-- With averaging disabled the whole loop maps lines to their
line-determined outputs and never moves the accumulator. -/
theorem Hgps.noavg_run (avgSecs : Fl) (minSats : Int) (h : avgSecs ≤ 0) :
    ∀ (ls : List (List Char)) (st : Hgps.St),
      (Hgps.runLinesAux avgSecs minSats st ls).1 = ls.map (Hgps.pureLine minSats) ∧
      (Hgps.runLinesAux avgSecs minSats st ls).2.t0 = st.t0 ∧
      (Hgps.runLinesAux avgSecs minSats st ls).2.navg = st.navg ∧
      (Hgps.runLinesAux avgSecs minSats st ls).2.avg = st.avg := by
  intro ls
  induction ls with
  | nil => intro st; exact ⟨rfl, rfl, rfl, rfl⟩
  | cons l ls ih =>
    intro st
    have hstep := Hgps.lineStep_noavg avgSecs minSats h st l
    have htail := ih (Hgps.lineStep avgSecs minSats st l).2
    refine ⟨?_, ?_, ?_, ?_⟩
    · show (Hgps.lineStep avgSecs minSats st l).1 ++
        (Hgps.runLinesAux avgSecs minSats (Hgps.lineStep avgSecs minSats st l).2 ls).1 = _
      rw [hstep.1, htail.1, List.map_cons]
      rfl
    · show (Hgps.runLinesAux avgSecs minSats (Hgps.lineStep avgSecs minSats st l).2 ls).2.t0 = _
      rw [htail.2.1, hstep.2.1]
    · show (Hgps.runLinesAux avgSecs minSats (Hgps.lineStep avgSecs minSats st l).2 ls).2.navg = _
      rw [htail.2.2.1, hstep.2.2.1]
    · show (Hgps.runLinesAux avgSecs minSats (Hgps.lineStep avgSecs minSats st l).2 ls).2.avg = _
      rw [htail.2.2.2, hstep.2.2.2]

/-- Sensor version of `noavg_run`. -/
theorem Hsensor.noavg_run_sns (avgSecs : Fl) (h : avgSecs ≤ 0) :
    ∀ (ls : List (List Char)) (st : Hsensor.St),
      (Hsensor.runLinesAux avgSecs st ls).1 = ls.map Hsensor.pureLine ∧
      (Hsensor.runLinesAux avgSecs st ls).2.t0 = st.t0 ∧
      (Hsensor.runLinesAux avgSecs st ls).2.navg = st.navg ∧
      (Hsensor.runLinesAux avgSecs st ls).2.avg = st.avg := by
  intro ls
  induction ls with
  | nil => intro st; exact ⟨rfl, rfl, rfl, rfl⟩
  | cons l ls ih =>
    intro st
    have hstep := Hsensor.lineStep_noavg_sns avgSecs h st l
    have htail := ih (Hsensor.lineStep avgSecs st l).2
    refine ⟨?_, ?_, ?_, ?_⟩
    · show (Hsensor.lineStep avgSecs st l).1 ++
        (Hsensor.runLinesAux avgSecs (Hsensor.lineStep avgSecs st l).2 ls).1 = _
      rw [hstep.1, htail.1, List.map_cons]
      rfl
    · show (Hsensor.runLinesAux avgSecs (Hsensor.lineStep avgSecs st l).2 ls).2.t0 = _
      rw [htail.2.1, hstep.2.1]
    · show (Hsensor.runLinesAux avgSecs (Hsensor.lineStep avgSecs st l).2 ls).2.navg = _
      rw [htail.2.2.1, hstep.2.2.1]
    · show (Hsensor.runLinesAux avgSecs (Hsensor.lineStep avgSecs st l).2 ls).2.avg = _
      rw [htail.2.2.2, hstep.2.2.2]

/-- C6: with window length ≤ 0, every line produces exactly one output
line in input order — a passthrough comment for non-data, unparsable or
filtered lines and one unaveraged data line for every valid record, each
a function of the line alone — and the accumulator (window start time,
count, sums) still holds its initial value after every prefix of the
input, so no state carries over between records; the final flush emits
nothing.  This holds for both pipelines. -/
theorem C6_theorem :
    ∀ avgSecs : Fl, avgSecs ≤ 0 →
      (∀ (minSats : Int) (ls : List (List Char)),
        Hgps.runLines avgSecs minSats ls = ls.map (Hgps.pureLine minSats) ∧
        ∀ n : Nat,
          (Hgps.runLinesAux avgSecs minSats Hgps.initSt (ls.take n)).2.t0 = Hgps.initSt.t0 ∧
          (Hgps.runLinesAux avgSecs minSats Hgps.initSt (ls.take n)).2.navg = 0 ∧
          (Hgps.runLinesAux avgSecs minSats Hgps.initSt (ls.take n)).2.avg = Hgps.d0) ∧
      (∀ ls : List (List Char),
        Hsensor.runLines avgSecs ls = ls.map Hsensor.pureLine ∧
        ∀ n : Nat,
          (Hsensor.runLinesAux avgSecs Hsensor.initSt (ls.take n)).2.t0 = Hsensor.initSt.t0 ∧
          (Hsensor.runLinesAux avgSecs Hsensor.initSt (ls.take n)).2.navg = 0 ∧
          (Hsensor.runLinesAux avgSecs Hsensor.initSt (ls.take n)).2.avg = Hsensor.s0) := by
  intro avgSecs h
  constructor
  · intro minSats ls
    have hrun := Hgps.noavg_run avgSecs minSats h ls Hgps.initSt
    constructor
    · have hfin : Hgps.finish (Hgps.runLinesAux avgSecs minSats Hgps.initSt ls).2 = [] := by
        rw [Hgps.finish, hrun.2.2.1]
        rfl
      rw [Hgps.runLines, hrun.1, hfin, List.append_nil]
    · intro n
      have h2 := Hgps.noavg_run avgSecs minSats h (ls.take n) Hgps.initSt
      exact ⟨h2.2.1, h2.2.2.1, h2.2.2.2⟩
  · intro ls
    have hrun := Hsensor.noavg_run_sns avgSecs h ls Hsensor.initSt
    constructor
    · have hfin : Hsensor.finish (Hsensor.runLinesAux avgSecs Hsensor.initSt ls).2 = [] := by
        rw [Hsensor.finish, hrun.2.2.1]
        rfl
      rw [Hsensor.runLines, hrun.1, hfin, List.append_nil]
    · intro n
      have h2 := Hsensor.noavg_run_sns avgSecs h (ls.take n) Hsensor.initSt
      exact ⟨h2.2.1, h2.2.2.1, h2.2.2.2⟩

/-- Witness for C6 with window length 0 on concrete one-line inputs. -/
theorem C6_witness :
    (0 : Fl) ≤ 0 ∧
    Hgps.runLines 0 0 [gpsL1] = [gpsL1].map (Hgps.pureLine 0) ∧
    Hsensor.runLines 0 [snsP] = [snsP].map Hsensor.pureLine :=
  ⟨by decide, ((C6_theorem 0 (by decide)).1 0 [gpsL1]).1,
   ((C6_theorem 0 (by decide)).2 [snsP]).1⟩

theorem Hgps.mkAvg_navg (navg : Int) (raw avg : Hgps.GPSDATA) :
    (Hgps.mkAvg navg raw avg).navg = navg := by
  rw [Hgps.mkAvg]
  split <;> rfl

theorem Hgps.updateAverage_fst (navg : Int) (raw avg : Hgps.GPSDATA) :
    (Hgps.updateAverage navg raw avg).1 = if navg < 1 then 1 else navg + 1 := by
  rw [Hgps.updateAverage]
  split <;> rfl

theorem Hsensor.updateAverage_fst_sns (navg : Int) (raw avg : Hsensor.SENSORDATA) :
    (Hsensor.updateAverage navg raw avg).1 = if navg < 1 then 1 else navg + 1 := by
  rw [Hsensor.updateAverage]
  split <;> rfl

theorem Hgps.sumCounts_append (a b : List Hgps.Out) :
    Hgps.sumCounts (a ++ b) = Hgps.sumCounts a + Hgps.sumCounts b := by
  simp [Hgps.sumCounts]

theorem Hsensor.sumCounts_append_sns (a b : List Hsensor.Out) :
    Hsensor.sumCounts (a ++ b) = Hsensor.sumCounts a + Hsensor.sumCounts b := by
  simp [Hsensor.sumCounts]

/-- One admitted record conserves the count: the emitted member count
plus the new accumulator count equals the old count plus one. -/
theorem Hgps.handle_cons (avgSecs : Fl) (h : (0 : Fl) < avgSecs)
    (st : Hgps.St) (r : Hgps.GPSDATA) (h0 : 0 ≤ st.navg) :
    Hgps.sumCounts (Hgps.handle avgSecs st r).1 + (Hgps.handle avgSecs st r).2.navg =
      st.navg + 1 ∧
    0 ≤ (Hgps.handle avgSecs st r).2.navg := by
  have hle := Fl.not_le_zero_of_zero_lt avgSecs h
  rw [Hgps.handle, if_neg hle]
  by_cases hw : avgSecs < r.tsecs - st.t0 ∨ st.t0 < 0
  · rw [if_pos hw]
    by_cases h1 : st.navg < 1
    · rw [Hgps.showAverage, if_pos h1]
      refine ⟨?_, ?_⟩
      · show Hgps.sumCounts [] + (Hgps.updateAverage 0 r st.avg).1 = st.navg + 1
        rw [Hgps.updateAverage_fst]
        have hz : Hgps.sumCounts [] = 0 := rfl
        rw [hz, if_pos (by omega : (0 : Int) < 1)]
        omega
      · show (0 : Int) ≤ (Hgps.updateAverage 0 r st.avg).1
        rw [Hgps.updateAverage_fst, if_pos (by omega : (0 : Int) < 1)]
        omega
    · rw [Hgps.showAverage, if_neg h1]
      refine ⟨?_, ?_⟩
      · show Hgps.sumCounts [Hgps.Out.avg (Hgps.mkAvg st.navg r st.avg)] +
          (Hgps.updateAverage 0 r st.avg).1 = st.navg + 1
        have hz : Hgps.sumCounts [Hgps.Out.avg (Hgps.mkAvg st.navg r st.avg)] =
            (Hgps.mkAvg st.navg r st.avg).navg := by
          simp [Hgps.sumCounts]
        rw [hz, Hgps.mkAvg_navg, Hgps.updateAverage_fst,
          if_pos (by omega : (0 : Int) < 1)]
      · show (0 : Int) ≤ (Hgps.updateAverage 0 r st.avg).1
        rw [Hgps.updateAverage_fst, if_pos (by omega : (0 : Int) < 1)]
        omega
  · rw [if_neg hw]
    refine ⟨?_, ?_⟩
    · show Hgps.sumCounts [] + (Hgps.updateAverage st.navg r st.avg).1 = st.navg + 1
      rw [Hgps.updateAverage_fst]
      have hz : Hgps.sumCounts [] = 0 := rfl
      rw [hz]
      by_cases h1 : st.navg < 1
      · rw [if_pos h1]
        omega
      · rw [if_neg h1]
        omega
    · show (0 : Int) ≤ (Hgps.updateAverage st.navg r st.avg).1
      rw [Hgps.updateAverage_fst]
      by_cases h1 : st.navg < 1
      · rw [if_pos h1]
        omega
      · rw [if_neg h1]
        omega

/-- Sensor version of `handle_cons`. -/
theorem Hsensor.handle_cons_sns (avgSecs : Fl) (h : (0 : Fl) < avgSecs)
    (st : Hsensor.St) (r : Hsensor.SENSORDATA) (h0 : 0 ≤ st.navg) :
    Hsensor.sumCounts (Hsensor.handle avgSecs st r).1 + (Hsensor.handle avgSecs st r).2.navg =
      st.navg + 1 ∧
    0 ≤ (Hsensor.handle avgSecs st r).2.navg := by
  have hle := Fl.not_le_zero_of_zero_lt avgSecs h
  rw [Hsensor.handle, if_neg hle]
  by_cases hw : avgSecs < r.tsecs - st.t0 ∨ st.t0 < 0
  · rw [if_pos hw]
    by_cases h1 : st.navg < 1
    · rw [Hsensor.showAverage, if_pos h1]
      refine ⟨?_, ?_⟩
      · show Hsensor.sumCounts [] + (Hsensor.updateAverage 0 r st.avg).1 = st.navg + 1
        rw [Hsensor.updateAverage_fst_sns]
        have hz : Hsensor.sumCounts [] = 0 := rfl
        rw [hz, if_pos (by omega : (0 : Int) < 1)]
        omega
      · show (0 : Int) ≤ (Hsensor.updateAverage 0 r st.avg).1
        rw [Hsensor.updateAverage_fst_sns, if_pos (by omega : (0 : Int) < 1)]
        omega
    · rw [Hsensor.showAverage, if_neg h1]
      refine ⟨?_, ?_⟩
      · have hz : ∀ a : Hsensor.SENSORDATA,
            Hsensor.sumCounts [Hsensor.Out.avg a st.navg] = st.navg := by
          intro a
          simp [Hsensor.sumCounts]
        show Hsensor.sumCounts [Hsensor.Out.avg _ st.navg] +
          (Hsensor.updateAverage 0 r st.avg).1 = st.navg + 1
        rw [hz, Hsensor.updateAverage_fst_sns, if_pos (by omega : (0 : Int) < 1)]
      · show (0 : Int) ≤ (Hsensor.updateAverage 0 r st.avg).1
        rw [Hsensor.updateAverage_fst_sns, if_pos (by omega : (0 : Int) < 1)]
        omega
  · rw [if_neg hw]
    refine ⟨?_, ?_⟩
    · show Hsensor.sumCounts [] + (Hsensor.updateAverage st.navg r st.avg).1 = st.navg + 1
      rw [Hsensor.updateAverage_fst_sns]
      have hz : Hsensor.sumCounts [] = 0 := rfl
      rw [hz]
      by_cases h1 : st.navg < 1
      · rw [if_pos h1]
        omega
      · rw [if_neg h1]
        omega
    · show (0 : Int) ≤ (Hsensor.updateAverage st.navg r st.avg).1
      rw [Hsensor.updateAverage_fst_sns]
      by_cases h1 : st.navg < 1
      · rw [if_pos h1]
        omega
      · rw [if_neg h1]
        omega

/-- One processed line conserves the count, adding one exactly for valid
lines. -/
theorem Hgps.lineStep_cons (avgSecs : Fl) (minSats : Int) (h : (0 : Fl) < avgSecs)
    (st : Hgps.St) (l : List Char) (h0 : 0 ≤ st.navg) :
    Hgps.sumCounts (Hgps.lineStep avgSecs minSats st l).1 +
      (Hgps.lineStep avgSecs minSats st l).2.navg =
      st.navg + (if Hgps.validLine minSats l then 1 else 0) ∧
    0 ≤ (Hgps.lineStep avgSecs minSats st l).2.navg := by
  by_cases hd : Scan.dataLine l = false
  · have hv : Hgps.validLine minSats l = false := by
      simp [Hgps.validLine, hd]
    rw [hv]
    simp [Hgps.lineStep, hd, Hgps.sumCounts]
    omega
  · have hd2 : Scan.dataLine l = true := by simpa using hd
    by_cases hn : (Hgps.scanVals l).length = 11
    case neg =>
      have hv : Hgps.validLine minSats l = false := by
        simp [Hgps.validLine, hn]
      rw [hv]
      simp [Hgps.lineStep, hd2, hn, Hgps.sumCounts]
      omega
    case pos =>
      have hind := Hgps.applyVals_indep st.raw Hgps.d0 (Hgps.scanVals l)
        (Hgps.scanVals_shape l hn)
      by_cases hs : (Hgps.applyVals st.raw (Hgps.scanVals l)).nsats < minSats
      · have hs2 : ¬ minSats ≤ (Hgps.applyVals Hgps.d0 (Hgps.scanVals l)).nsats := by
          rw [← hind.2]
          omega
        have hv : Hgps.validLine minSats l = false := by
          simp [Hgps.validLine, hs2]
        rw [hv]
        simp [Hgps.lineStep, hd2, hn, hs, Hgps.sumCounts]
        omega
      · have hv : Hgps.validLine minSats l = true := by
          have hs2 : minSats ≤ (Hgps.applyVals Hgps.d0 (Hgps.scanVals l)).nsats := by
            rw [← hind.2]
            omega
          simp [Hgps.validLine, hd2, hn, hs2]
        obtain ⟨hh1, hh2⟩ := Hgps.handle_cons avgSecs h st
          (Hgps.normYear (Hgps.applyVals st.raw (Hgps.scanVals l))) h0
        rw [Hgps.lineStep, if_neg (by simp [hd2]), if_neg (by simp [hn]), if_neg hs, hv]
        refine ⟨?_, hh2⟩
        rw [hh1]
        simp

/-- Sensor version of `lineStep_cons`. -/
theorem Hsensor.lineStep_cons_sns (avgSecs : Fl) (h : (0 : Fl) < avgSecs)
    (st : Hsensor.St) (l : List Char) (h0 : 0 ≤ st.navg) :
    Hsensor.sumCounts (Hsensor.lineStep avgSecs st l).1 +
      (Hsensor.lineStep avgSecs st l).2.navg =
      st.navg + (if Hsensor.validLine l then 1 else 0) ∧
    0 ≤ (Hsensor.lineStep avgSecs st l).2.navg := by
  by_cases hd : Scan.dataLine l = false
  · have hv : Hsensor.validLine l = false := by
      simp [Hsensor.validLine, hd]
    rw [hv]
    simp [Hsensor.lineStep, hd, Hsensor.sumCounts]
    omega
  · have hd2 : Scan.dataLine l = true := by simpa using hd
    by_cases hn : (Hsensor.scanVals l).length = 18
    case neg =>
      have hv : Hsensor.validLine l = false := by
        simp [Hsensor.validLine, hn]
      rw [hv]
      simp [Hsensor.lineStep, hd2, hn, Hsensor.sumCounts]
      omega
    case pos =>
      have hv : Hsensor.validLine l = true := by
        simp [Hsensor.validLine, hd2, hn]
      obtain ⟨hh1, hh2⟩ := Hsensor.handle_cons_sns avgSecs h st
        (Hsensor.applyVals st.raw (Hsensor.scanVals l)) h0
      rw [Hsensor.lineStep, if_neg (by simp [hd2]), if_neg (by simp [hn]), hv]
      refine ⟨?_, hh2⟩
      rw [hh1]
      simp

/-- Loop-level count conservation for the GPS pipeline. -/
theorem Hgps.run_cons (avgSecs : Fl) (minSats : Int) (h : (0 : Fl) < avgSecs) :
    ∀ (ls : List (List Char)) (st : Hgps.St), 0 ≤ st.navg →
      Hgps.sumCounts (Hgps.runLinesAux avgSecs minSats st ls).1 +
        (Hgps.runLinesAux avgSecs minSats st ls).2.navg =
        st.navg + ((ls.filter (Hgps.validLine minSats)).length : Int) ∧
      0 ≤ (Hgps.runLinesAux avgSecs minSats st ls).2.navg := by
  intro ls
  induction ls with
  | nil =>
    intro st h0
    refine ⟨?_, h0⟩
    show Hgps.sumCounts [] + st.navg =
      st.navg + ((List.filter (Hgps.validLine minSats) []).length : Int)
    have hz : Hgps.sumCounts [] = 0 := rfl
    rw [hz]
    simp
  | cons l ls ih =>
    intro st h0
    obtain ⟨hs1, hs2⟩ := Hgps.lineStep_cons avgSecs minSats h st l h0
    obtain ⟨ht1, ht2⟩ := ih (Hgps.lineStep avgSecs minSats st l).2 hs2
    have happ : (Hgps.runLinesAux avgSecs minSats st (l :: ls)).1 =
        (Hgps.lineStep avgSecs minSats st l).1 ++
          (Hgps.runLinesAux avgSecs minSats (Hgps.lineStep avgSecs minSats st l).2 ls).1 := rfl
    have hst : (Hgps.runLinesAux avgSecs minSats st (l :: ls)).2 =
        (Hgps.runLinesAux avgSecs minSats (Hgps.lineStep avgSecs minSats st l).2 ls).2 := rfl
    rw [happ, hst, Hgps.sumCounts_append, List.filter_cons]
    refine ⟨?_, ht2⟩
    by_cases hv : Hgps.validLine minSats l = true
    · rw [hv] at hs1
      rw [if_pos hv]
      simp at hs1
      simp only [List.length_cons]
      push_cast
      omega
    · have hv2 : Hgps.validLine minSats l = false := by simpa using hv
      rw [hv2] at hs1
      rw [if_neg hv]
      simp only [Bool.false_eq_true, if_false] at hs1
      omega

/-- Loop-level count conservation for the sensor pipeline. -/
theorem Hsensor.run_cons_sns (avgSecs : Fl) (h : (0 : Fl) < avgSecs) :
    ∀ (ls : List (List Char)) (st : Hsensor.St), 0 ≤ st.navg →
      Hsensor.sumCounts (Hsensor.runLinesAux avgSecs st ls).1 +
        (Hsensor.runLinesAux avgSecs st ls).2.navg =
        st.navg + ((ls.filter Hsensor.validLine).length : Int) ∧
      0 ≤ (Hsensor.runLinesAux avgSecs st ls).2.navg := by
  intro ls
  induction ls with
  | nil =>
    intro st h0
    refine ⟨?_, h0⟩
    show Hsensor.sumCounts [] + st.navg =
      st.navg + ((List.filter Hsensor.validLine []).length : Int)
    have hz : Hsensor.sumCounts [] = 0 := rfl
    rw [hz]
    simp
  | cons l ls ih =>
    intro st h0
    obtain ⟨hs1, hs2⟩ := Hsensor.lineStep_cons_sns avgSecs h st l h0
    obtain ⟨ht1, ht2⟩ := ih (Hsensor.lineStep avgSecs st l).2 hs2
    have happ : (Hsensor.runLinesAux avgSecs st (l :: ls)).1 =
        (Hsensor.lineStep avgSecs st l).1 ++
          (Hsensor.runLinesAux avgSecs (Hsensor.lineStep avgSecs st l).2 ls).1 := rfl
    have hst : (Hsensor.runLinesAux avgSecs st (l :: ls)).2 =
        (Hsensor.runLinesAux avgSecs (Hsensor.lineStep avgSecs st l).2 ls).2 := rfl
    rw [happ, hst, Hsensor.sumCounts_append_sns, List.filter_cons]
    refine ⟨?_, ht2⟩
    by_cases hv : Hsensor.validLine l = true
    · rw [hv] at hs1
      rw [if_pos hv]
      simp at hs1
      simp only [List.length_cons]
      push_cast
      omega
    · have hv2 : Hsensor.validLine l = false := by simpa using hv
      rw [hv2] at hs1
      rw [if_neg hv]
      simp only [Bool.false_eq_true, if_false] at hs1
      omega

/-- The final flush emits exactly the pending count. -/
theorem Hgps.sumCounts_finish (st : Hgps.St) (h0 : 0 ≤ st.navg) :
    Hgps.sumCounts (Hgps.finish st) = st.navg := by
  rw [Hgps.finish]
  by_cases h1 : st.navg < 1
  · rw [Hgps.showAverage, if_pos h1]
    have hz : Hgps.sumCounts [] = 0 := rfl
    rw [hz]
    omega
  · rw [Hgps.showAverage, if_neg h1]
    have hz : Hgps.sumCounts [Hgps.Out.avg (Hgps.mkAvg st.navg st.raw st.avg)] =
        (Hgps.mkAvg st.navg st.raw st.avg).navg := by
      simp [Hgps.sumCounts]
    rw [hz, Hgps.mkAvg_navg]

/-- Sensor version of `sumCounts_finish`. -/
theorem Hsensor.sumCounts_finish_sns (st : Hsensor.St) (h0 : 0 ≤ st.navg) :
    Hsensor.sumCounts (Hsensor.finish st) = st.navg := by
  rw [Hsensor.finish]
  by_cases h1 : st.navg < 1
  · rw [Hsensor.showAverage, if_pos h1]
    have hz : Hsensor.sumCounts [] = 0 := rfl
    rw [hz]
    omega
  · rw [Hsensor.showAverage, if_neg h1]
    simp [Hsensor.sumCounts]

/-- C4: with averaging enabled, over any input the member counts of the
emitted averaged windows sum to exactly the number of valid records
consumed — each valid record is counted in exactly one flushed window —
in both pipelines (the GPS program prints the count; the sensor program
tracks it in the accumulator without printing it). -/
theorem C4_theorem :
    ∀ avgSecs : Fl, (0 : Fl) < avgSecs →
      (∀ (minSats : Int) (ls : List (List Char)),
        Hgps.sumCounts (Hgps.runLines avgSecs minSats ls) =
          ((ls.filter (Hgps.validLine minSats)).length : Int)) ∧
      (∀ ls : List (List Char),
        Hsensor.sumCounts (Hsensor.runLines avgSecs ls) =
          ((ls.filter Hsensor.validLine).length : Int)) := by
  intro avgSecs h
  constructor
  · intro minSats ls
    obtain ⟨hc1, hc2⟩ := Hgps.run_cons avgSecs minSats h ls Hgps.initSt (by decide)
    rw [Hgps.runLines, Hgps.sumCounts_append,
      Hgps.sumCounts_finish (Hgps.runLinesAux avgSecs minSats Hgps.initSt ls).2 hc2]
    have h0 : Hgps.initSt.navg = 0 := rfl
    omega
  · intro ls
    obtain ⟨hc1, hc2⟩ := Hsensor.run_cons_sns avgSecs h ls Hsensor.initSt (by decide)
    rw [Hsensor.runLines, Hsensor.sumCounts_append_sns,
      Hsensor.sumCounts_finish_sns (Hsensor.runLinesAux avgSecs Hsensor.initSt ls).2 hc2]
    have h0 : Hsensor.initSt.navg = 0 := rfl
    omega

/-- Witness for C4 on concrete inputs (GPS: two valid records and one
filtered line; sensor: one valid record). -/
theorem C4_witness :
    (0 : Fl) < 10 ∧
    Hgps.sumCounts (Hgps.runLines 10 4 [gpsL1, gpsL2, gpsL3]) =
      (([gpsL1, gpsL2, gpsL3].filter (Hgps.validLine 4)).length : Int) ∧
    Hsensor.sumCounts (Hsensor.runLines 10 [snsP]) =
      (([snsP].filter Hsensor.validLine).length : Int) :=
  ⟨by decide, (C4_theorem 10 (by decide)).1 4 [gpsL1, gpsL2, gpsL3],
   (C4_theorem 10 (by decide)).2 [snsP]⟩

theorem Hgps.finish_length (st : Hgps.St) :
    (Hgps.finish st).length = if 1 ≤ st.navg then 1 else 0 := by
  rw [Hgps.finish]
  by_cases h1 : st.navg < 1
  · rw [Hgps.showAverage, if_pos h1, if_neg (by omega)]
    rfl
  · rw [Hgps.showAverage, if_neg h1, if_pos (by omega)]
    rfl

theorem Hsensor.finish_length_sns (st : Hsensor.St) :
    (Hsensor.finish st).length = if 1 ≤ st.navg then 1 else 0 := by
  rw [Hsensor.finish]
  by_cases h1 : st.navg < 1
  · rw [Hsensor.showAverage, if_pos h1, if_neg (by omega)]
    rfl
  · rw [Hsensor.showAverage, if_neg h1, if_pos (by omega)]
    rfl

/-- C5: at end of input both pipelines attempt exactly one final flush,
appended after the loop's output: it emits exactly one averaged line when
the open window holds at least one accumulated record and nothing when
the count is zero — in particular when averaging is disabled, in which
case the count is still zero at end of input. -/
theorem C5_theorem :
    ∀ (avgSecs : Fl) (minSats : Int) (ls : List (List Char)),
      (Hgps.runLines avgSecs minSats ls =
        (Hgps.runLinesAux avgSecs minSats Hgps.initSt ls).1 ++
          Hgps.finish (Hgps.runLinesAux avgSecs minSats Hgps.initSt ls).2 ∧
       (Hgps.finish (Hgps.runLinesAux avgSecs minSats Hgps.initSt ls).2).length =
        (if 1 ≤ (Hgps.runLinesAux avgSecs minSats Hgps.initSt ls).2.navg then 1 else 0) ∧
       (avgSecs ≤ 0 → (Hgps.runLinesAux avgSecs minSats Hgps.initSt ls).2.navg = 0)) ∧
      (Hsensor.runLines avgSecs ls =
        (Hsensor.runLinesAux avgSecs Hsensor.initSt ls).1 ++
          Hsensor.finish (Hsensor.runLinesAux avgSecs Hsensor.initSt ls).2 ∧
       (Hsensor.finish (Hsensor.runLinesAux avgSecs Hsensor.initSt ls).2).length =
        (if 1 ≤ (Hsensor.runLinesAux avgSecs Hsensor.initSt ls).2.navg then 1 else 0) ∧
       (avgSecs ≤ 0 → (Hsensor.runLinesAux avgSecs Hsensor.initSt ls).2.navg = 0)) := by
  intro avgSecs minSats ls
  refine ⟨⟨rfl, Hgps.finish_length _, ?_⟩, rfl, Hsensor.finish_length_sns _, ?_⟩
  · intro h
    exact (Hgps.noavg_run avgSecs minSats h ls Hgps.initSt).2.2.1
  · intro h
    exact (Hsensor.noavg_run_sns avgSecs h ls Hsensor.initSt).2.2.1

/-- Witness for C5: a one-record input flushes exactly one averaged line
at end of input, and with averaging disabled the pending count stays
zero. -/
theorem C5_witness :
    ((Hgps.finish (Hgps.runLinesAux 10 4 Hgps.initSt [gpsL1]).2).length =
      (if 1 ≤ (Hgps.runLinesAux 10 4 Hgps.initSt [gpsL1]).2.navg then 1 else 0)) ∧
    ((0 : Fl) ≤ 0 ∧ (Hgps.runLinesAux 0 4 Hgps.initSt [gpsL1]).2.navg = 0) ∧
    ((Hsensor.finish (Hsensor.runLinesAux 10 Hsensor.initSt [snsP]).2).length =
      (if 1 ≤ (Hsensor.runLinesAux 10 Hsensor.initSt [snsP]).2.navg then 1 else 0)) :=
  ⟨(C5_theorem 10 4 [gpsL1]).1.2.1,
   ⟨by decide, (C5_theorem 0 4 [gpsL1]).1.2.2 (by decide)⟩,
   (C5_theorem 10 4 [snsP]).2.2.1⟩

theorem Hgps.inv_init : Hgps.inv Hgps.initSt :=
  ⟨by decide, fun _ => rfl⟩

/-- One admitted record with a nonnegative time axis preserves the loop
invariant. -/
theorem Hgps.handle_inv (avgSecs : Fl) (h : (0 : Fl) < avgSecs) (st : Hgps.St)
    (r : Hgps.GPSDATA) (hr : (0 : Fl) ≤ r.tsecs) (hi : Hgps.inv st) :
    Hgps.inv (Hgps.handle avgSecs st r).2 := by
  have hle := Fl.not_le_zero_of_zero_lt avgSecs h
  rw [Hgps.handle, if_neg hle]
  by_cases hw : avgSecs < r.tsecs - st.t0 ∨ st.t0 < 0
  · rw [if_pos hw]
    refine ⟨?_, ?_⟩
    · show (0 : Int) ≤ (Hgps.updateAverage 0 r st.avg).1
      rw [Hgps.updateAverage_fst, if_pos (by omega : (0 : Int) < 1)]
      omega
    · intro ht0
      exact absurd ht0 (Fl.not_lt_zero_of_zero_le r.tsecs hr)
  · rw [if_neg hw]
    refine ⟨?_, ?_⟩
    · show (0 : Int) ≤ (Hgps.updateAverage st.navg r st.avg).1
      rw [Hgps.updateAverage_fst]
      by_cases h1 : st.navg < 1
      · rw [if_pos h1]
        omega
      · rw [if_neg h1]
        omega
    · intro ht0
      exact ((hw (Or.inr ht0)).elim : _)

/-- The loop invariant holds after any run over records with nonnegative
time axis. -/
theorem Hgps.runRecs_inv (avgSecs : Fl) (h : (0 : Fl) < avgSecs) :
    ∀ (rs : List Hgps.GPSDATA) (st : Hgps.St),
      (∀ r ∈ rs, (0 : Fl) ≤ r.tsecs) → Hgps.inv st →
      Hgps.inv (Hgps.runRecsAux avgSecs st rs).2 := by
  intro rs
  induction rs with
  | nil => intro st _ hi; exact hi
  | cons r rs ih =>
    intro st hall hi
    have h1 := Hgps.handle_inv avgSecs h st r (hall r (by simp)) hi
    exact ih (Hgps.handle avgSecs st r).2 (fun x hx => hall x (by simp [hx])) h1

/-- Characterization of a flush: an admitted record makes the loop emit
an averaged line exactly when the open window is nonempty and the
record's elapsed time exceeds the window start by strictly more than the
window length; the emitted member count is the pending count. -/
theorem Hgps.handle_char (avgSecs : Fl) (h : (0 : Fl) < avgSecs) (st : Hgps.St)
    (r : Hgps.GPSDATA) (hi : Hgps.inv st) :
    ((Hgps.handle avgSecs st r).1 ≠ [] ↔
      (1 ≤ st.navg ∧ avgSecs < r.tsecs - st.t0)) ∧
    (∀ a : Hgps.AvgLine, Hgps.Out.avg a ∈ (Hgps.handle avgSecs st r).1 →
      a.navg = st.navg) := by
  have hle := Fl.not_le_zero_of_zero_lt avgSecs h
  rw [Hgps.handle, if_neg hle]
  by_cases hw : avgSecs < r.tsecs - st.t0 ∨ st.t0 < 0
  · rw [if_pos hw]
    by_cases h1 : st.navg < 1
    · rw [Hgps.showAverage, if_pos h1]
      refine ⟨⟨fun hne => absurd rfl hne, ?_⟩, ?_⟩
      · rintro ⟨ha, -⟩
        exact absurd ha (by omega)
      · intro a ha
        simp at ha
    · rw [Hgps.showAverage, if_neg h1]
      refine ⟨⟨fun _ => ⟨by omega, ?_⟩, fun _ => by simp⟩, ?_⟩
      · rcases hw with hw1 | hw2
        · exact hw1
        · exact absurd (hi.2 hw2) (by omega)
      · intro a ha
        simp at ha
        rw [ha, Hgps.mkAvg_navg]
  · rw [if_neg hw]
    refine ⟨⟨fun hne => absurd rfl hne, ?_⟩, ?_⟩
    · rintro ⟨-, h2⟩
      exact (hw (Or.inl h2)).elim
    · intro a ha
      simp at ha

/-- Record-level count conservation for the GPS loop. -/
theorem Hgps.recs_cons (avgSecs : Fl) (h : (0 : Fl) < avgSecs) :
    ∀ (rs : List Hgps.GPSDATA) (st : Hgps.St), 0 ≤ st.navg →
      Hgps.sumCounts (Hgps.runRecsAux avgSecs st rs).1 +
        (Hgps.runRecsAux avgSecs st rs).2.navg = st.navg + (rs.length : Int) ∧
      0 ≤ (Hgps.runRecsAux avgSecs st rs).2.navg := by
  intro rs
  induction rs with
  | nil =>
    intro st h0
    refine ⟨?_, h0⟩
    show Hgps.sumCounts [] + st.navg = st.navg + ((List.length ([] : List Hgps.GPSDATA)) : Int)
    have hz : Hgps.sumCounts [] = 0 := rfl
    rw [hz]
    simp
  | cons r rs ih =>
    intro st h0
    obtain ⟨hh1, hh2⟩ := Hgps.handle_cons avgSecs h st r h0
    obtain ⟨ht1, ht2⟩ := ih (Hgps.handle avgSecs st r).2 hh2
    have happ : (Hgps.runRecsAux avgSecs st (r :: rs)).1 =
        (Hgps.handle avgSecs st r).1 ++
          (Hgps.runRecsAux avgSecs (Hgps.handle avgSecs st r).2 rs).1 := rfl
    have hst : (Hgps.runRecsAux avgSecs st (r :: rs)).2 =
        (Hgps.runRecsAux avgSecs (Hgps.handle avgSecs st r).2 rs).2 := rfl
    rw [happ, hst, Hgps.sumCounts_append]
    refine ⟨?_, ht2⟩
    simp only [List.length_cons]
    push_cast
    omega

theorem Hgps.finish_ne_nil (st : Hgps.St) : Hgps.finish st ≠ [] ↔ 1 ≤ st.navg := by
  have hl := Hgps.finish_length st
  by_cases hn : 1 ≤ st.navg
  · rw [if_pos hn] at hl
    exact ⟨fun _ => hn, fun _ hcon => by rw [hcon] at hl; simp at hl⟩
  · rw [if_neg hn] at hl
    exact ⟨fun hne => absurd (List.length_eq_zero.mp hl) hne, fun h1 => absurd h1 hn⟩

theorem Hgps.finish_navg (st : Hgps.St) :
    ∀ a : Hgps.AvgLine, Hgps.Out.avg a ∈ Hgps.finish st → a.navg = st.navg := by
  intro a
  rw [Hgps.finish]
  by_cases h1 : st.navg < 1
  · rw [Hgps.showAverage, if_pos h1]
    intro ha
    simp at ha
  · rw [Hgps.showAverage, if_neg h1]
    intro ha
    simp at ha
    rw [ha, Hgps.mkAvg_navg]

theorem Hsensor.inv_init_sns : Hsensor.inv Hsensor.initSt :=
  ⟨by decide, fun _ => rfl⟩

/-- Sensor version of `handle_inv`. -/
theorem Hsensor.handle_inv_sns (avgSecs : Fl) (h : (0 : Fl) < avgSecs) (st : Hsensor.St)
    (r : Hsensor.SENSORDATA) (hr : (0 : Fl) ≤ r.tsecs) (hi : Hsensor.inv st) :
    Hsensor.inv (Hsensor.handle avgSecs st r).2 := by
  have hle := Fl.not_le_zero_of_zero_lt avgSecs h
  rw [Hsensor.handle, if_neg hle]
  by_cases hw : avgSecs < r.tsecs - st.t0 ∨ st.t0 < 0
  · rw [if_pos hw]
    refine ⟨?_, ?_⟩
    · show (0 : Int) ≤ (Hsensor.updateAverage 0 r st.avg).1
      rw [Hsensor.updateAverage_fst_sns, if_pos (by omega : (0 : Int) < 1)]
      omega
    · intro ht0
      exact absurd ht0 (Fl.not_lt_zero_of_zero_le r.tsecs hr)
  · rw [if_neg hw]
    refine ⟨?_, ?_⟩
    · show (0 : Int) ≤ (Hsensor.updateAverage st.navg r st.avg).1
      rw [Hsensor.updateAverage_fst_sns]
      by_cases h1 : st.navg < 1
      · rw [if_pos h1]
        omega
      · rw [if_neg h1]
        omega
    · intro ht0
      exact ((hw (Or.inr ht0)).elim : _)

/-- Sensor version of `runRecs_inv`. -/
theorem Hsensor.runRecs_inv_sns (avgSecs : Fl) (h : (0 : Fl) < avgSecs) :
    ∀ (rs : List Hsensor.SENSORDATA) (st : Hsensor.St),
      (∀ r ∈ rs, (0 : Fl) ≤ r.tsecs) → Hsensor.inv st →
      Hsensor.inv (Hsensor.runRecsAux avgSecs st rs).2 := by
  intro rs
  induction rs with
  | nil => intro st _ hi; exact hi
  | cons r rs ih =>
    intro st hall hi
    have h1 := Hsensor.handle_inv_sns avgSecs h st r (hall r (by simp)) hi
    exact ih (Hsensor.handle avgSecs st r).2 (fun x hx => hall x (by simp [hx])) h1

/-- Sensor version of `handle_char`. -/
theorem Hsensor.handle_char_sns (avgSecs : Fl) (h : (0 : Fl) < avgSecs) (st : Hsensor.St)
    (r : Hsensor.SENSORDATA) (hi : Hsensor.inv st) :
    ((Hsensor.handle avgSecs st r).1 ≠ [] ↔
      (1 ≤ st.navg ∧ avgSecs < r.tsecs - st.t0)) ∧
    (∀ (a : Hsensor.SENSORDATA) (n : Int),
      Hsensor.Out.avg a n ∈ (Hsensor.handle avgSecs st r).1 → n = st.navg) := by
  have hle := Fl.not_le_zero_of_zero_lt avgSecs h
  rw [Hsensor.handle, if_neg hle]
  by_cases hw : avgSecs < r.tsecs - st.t0 ∨ st.t0 < 0
  · rw [if_pos hw]
    by_cases h1 : st.navg < 1
    · rw [Hsensor.showAverage, if_pos h1]
      refine ⟨⟨fun hne => absurd rfl hne, ?_⟩, ?_⟩
      · rintro ⟨ha, -⟩
        exact absurd ha (by omega)
      · intro a n ha
        simp at ha
    · rw [Hsensor.showAverage, if_neg h1]
      refine ⟨⟨fun _ => ⟨by omega, ?_⟩, fun _ => by simp⟩, ?_⟩
      · rcases hw with hw1 | hw2
        · exact hw1
        · exact absurd (hi.2 hw2) (by omega)
      · intro a n ha
        simp at ha
        exact ha.2
  · rw [if_neg hw]
    refine ⟨⟨fun hne => absurd rfl hne, ?_⟩, ?_⟩
    · rintro ⟨-, h2⟩
      exact (hw (Or.inl h2)).elim
    · intro a n ha
      simp at ha

/-- Sensor version of `recs_cons`. -/
theorem Hsensor.recs_cons_sns (avgSecs : Fl) (h : (0 : Fl) < avgSecs) :
    ∀ (rs : List Hsensor.SENSORDATA) (st : Hsensor.St), 0 ≤ st.navg →
      Hsensor.sumCounts (Hsensor.runRecsAux avgSecs st rs).1 +
        (Hsensor.runRecsAux avgSecs st rs).2.navg = st.navg + (rs.length : Int) ∧
      0 ≤ (Hsensor.runRecsAux avgSecs st rs).2.navg := by
  intro rs
  induction rs with
  | nil =>
    intro st h0
    refine ⟨?_, h0⟩
    show Hsensor.sumCounts [] + st.navg =
      st.navg + ((List.length ([] : List Hsensor.SENSORDATA)) : Int)
    have hz : Hsensor.sumCounts [] = 0 := rfl
    rw [hz]
    simp
  | cons r rs ih =>
    intro st h0
    obtain ⟨hh1, hh2⟩ := Hsensor.handle_cons_sns avgSecs h st r h0
    obtain ⟨ht1, ht2⟩ := ih (Hsensor.handle avgSecs st r).2 hh2
    have happ : (Hsensor.runRecsAux avgSecs st (r :: rs)).1 =
        (Hsensor.handle avgSecs st r).1 ++
          (Hsensor.runRecsAux avgSecs (Hsensor.handle avgSecs st r).2 rs).1 := rfl
    have hst : (Hsensor.runRecsAux avgSecs st (r :: rs)).2 =
        (Hsensor.runRecsAux avgSecs (Hsensor.handle avgSecs st r).2 rs).2 := rfl
    rw [happ, hst, Hsensor.sumCounts_append_sns]
    refine ⟨?_, ht2⟩
    simp only [List.length_cons]
    push_cast
    omega

theorem Hsensor.finish_ne_nil_sns (st : Hsensor.St) :
    Hsensor.finish st ≠ [] ↔ 1 ≤ st.navg := by
  have hl := Hsensor.finish_length_sns st
  by_cases hn : 1 ≤ st.navg
  · rw [if_pos hn] at hl
    exact ⟨fun _ => hn, fun _ hcon => by rw [hcon] at hl; simp at hl⟩
  · rw [if_neg hn] at hl
    exact ⟨fun hne => absurd (List.length_eq_zero.mp hl) hne, fun h1 => absurd h1 hn⟩

theorem Hsensor.finish_navg_sns (st : Hsensor.St) :
    ∀ (a : Hsensor.SENSORDATA) (n : Int),
      Hsensor.Out.avg a n ∈ Hsensor.finish st → n = st.navg := by
  intro a n
  rw [Hsensor.finish]
  by_cases h1 : st.navg < 1
  · rw [Hsensor.showAverage, if_pos h1]
    intro ha
    simp at ha
  · rw [Hsensor.showAverage, if_neg h1]
    intro ha
    simp at ha
    exact ha.2

/-- C3: with averaging enabled and records carrying nonnegative elapsed
times, in both pipelines the loop emits an averaged line at the i-th
admitted record exactly when the open window is nonempty and that
record's elapsed seconds exceed the window start time by strictly more
than the window length; every averaged line emitted at that point, and
the one emitted by the end-of-input flush when the window is nonempty,
carries as member count the number of records accumulated since the
previous flush (the pending count, which together with the counts
already emitted accounts for all records seen so far). -/
theorem C3_theorem :
    ∀ avgSecs : Fl, (0 : Fl) < avgSecs →
      (∀ rs : List Hgps.GPSDATA, (∀ r ∈ rs, (0 : Fl) ≤ r.tsecs) →
        (∀ (i : Nat) (hi : i < rs.length),
          ((Hgps.handle avgSecs (Hgps.stAt avgSecs rs i) (rs.get ⟨i, hi⟩)).1 ≠ [] ↔
            (1 ≤ (Hgps.stAt avgSecs rs i).navg ∧
              avgSecs < (rs.get ⟨i, hi⟩).tsecs - (Hgps.stAt avgSecs rs i).t0)) ∧
          (∀ a : Hgps.AvgLine,
            Hgps.Out.avg a ∈
                (Hgps.handle avgSecs (Hgps.stAt avgSecs rs i) (rs.get ⟨i, hi⟩)).1 →
              a.navg = (Hgps.stAt avgSecs rs i).navg) ∧
          Hgps.sumCounts (Hgps.runRecsAux avgSecs Hgps.initSt (rs.take i)).1 +
            (Hgps.stAt avgSecs rs i).navg = (i : Int)) ∧
        (Hgps.finish (Hgps.runRecsAux avgSecs Hgps.initSt rs).2 ≠ [] ↔
          1 ≤ (Hgps.runRecsAux avgSecs Hgps.initSt rs).2.navg) ∧
        (∀ a : Hgps.AvgLine,
          Hgps.Out.avg a ∈ Hgps.finish (Hgps.runRecsAux avgSecs Hgps.initSt rs).2 →
            a.navg = (Hgps.runRecsAux avgSecs Hgps.initSt rs).2.navg) ∧
        Hgps.sumCounts (Hgps.runRecsAux avgSecs Hgps.initSt rs).1 +
          (Hgps.runRecsAux avgSecs Hgps.initSt rs).2.navg = (rs.length : Int)) ∧
      (∀ rs : List Hsensor.SENSORDATA, (∀ r ∈ rs, (0 : Fl) ≤ r.tsecs) →
        (∀ (i : Nat) (hi : i < rs.length),
          ((Hsensor.handle avgSecs (Hsensor.stAt avgSecs rs i) (rs.get ⟨i, hi⟩)).1 ≠ [] ↔
            (1 ≤ (Hsensor.stAt avgSecs rs i).navg ∧
              avgSecs < (rs.get ⟨i, hi⟩).tsecs - (Hsensor.stAt avgSecs rs i).t0)) ∧
          (∀ (a : Hsensor.SENSORDATA) (n : Int),
            Hsensor.Out.avg a n ∈
                (Hsensor.handle avgSecs (Hsensor.stAt avgSecs rs i) (rs.get ⟨i, hi⟩)).1 →
              n = (Hsensor.stAt avgSecs rs i).navg) ∧
          Hsensor.sumCounts (Hsensor.runRecsAux avgSecs Hsensor.initSt (rs.take i)).1 +
            (Hsensor.stAt avgSecs rs i).navg = (i : Int)) ∧
        (Hsensor.finish (Hsensor.runRecsAux avgSecs Hsensor.initSt rs).2 ≠ [] ↔
          1 ≤ (Hsensor.runRecsAux avgSecs Hsensor.initSt rs).2.navg) ∧
        (∀ (a : Hsensor.SENSORDATA) (n : Int),
          Hsensor.Out.avg a n ∈ Hsensor.finish (Hsensor.runRecsAux avgSecs Hsensor.initSt rs).2 →
            n = (Hsensor.runRecsAux avgSecs Hsensor.initSt rs).2.navg) ∧
        Hsensor.sumCounts (Hsensor.runRecsAux avgSecs Hsensor.initSt rs).1 +
          (Hsensor.runRecsAux avgSecs Hsensor.initSt rs).2.navg = (rs.length : Int)) := by
  intro avgSecs h
  constructor
  · intro rs hall
    refine ⟨?_, Hgps.finish_ne_nil _, Hgps.finish_navg _, ?_⟩
    · intro i hi
      have hsub : ∀ r ∈ rs.take i, (0 : Fl) ≤ r.tsecs :=
        fun r hr => hall r (List.take_subset i rs hr)
      have hinv : Hgps.inv (Hgps.stAt avgSecs rs i) :=
        Hgps.runRecs_inv avgSecs h (rs.take i) Hgps.initSt hsub Hgps.inv_init
      have hchar := Hgps.handle_char avgSecs h (Hgps.stAt avgSecs rs i)
        (rs.get ⟨i, hi⟩) hinv
      refine ⟨hchar.1, hchar.2, ?_⟩
      obtain ⟨hc1, -⟩ := Hgps.recs_cons avgSecs h (rs.take i) Hgps.initSt (by decide)
      have hlen : (rs.take i).length = i := by
        rw [List.length_take]
        omega
      rw [hlen] at hc1
      have h0 : Hgps.initSt.navg = 0 := rfl
      rw [Hgps.stAt]
      omega
    · obtain ⟨hc1, -⟩ := Hgps.recs_cons avgSecs h rs Hgps.initSt (by decide)
      have h0 : Hgps.initSt.navg = 0 := rfl
      omega
  · intro rs hall
    refine ⟨?_, Hsensor.finish_ne_nil_sns _, Hsensor.finish_navg_sns _, ?_⟩
    · intro i hi
      have hsub : ∀ r ∈ rs.take i, (0 : Fl) ≤ r.tsecs :=
        fun r hr => hall r (List.take_subset i rs hr)
      have hinv : Hsensor.inv (Hsensor.stAt avgSecs rs i) :=
        Hsensor.runRecs_inv_sns avgSecs h (rs.take i) Hsensor.initSt hsub Hsensor.inv_init_sns
      have hchar := Hsensor.handle_char_sns avgSecs h (Hsensor.stAt avgSecs rs i)
        (rs.get ⟨i, hi⟩) hinv
      refine ⟨hchar.1, hchar.2, ?_⟩
      obtain ⟨hc1, -⟩ := Hsensor.recs_cons_sns avgSecs h (rs.take i) Hsensor.initSt (by decide)
      have hlen : (rs.take i).length = i := by
        rw [List.length_take]
        omega
      rw [hlen] at hc1
      have h0 : Hsensor.initSt.navg = 0 := rfl
      rw [Hsensor.stAt]
      omega
    · obtain ⟨hc1, -⟩ := Hsensor.recs_cons_sns avgSecs h rs Hsensor.initSt (by decide)
      have h0 : Hsensor.initSt.navg = 0 := rfl
      omega

/-- Witness for C3 on one-record runs in both pipelines. -/
theorem C3_witness :
    (0 : Fl) < 10 ∧
    (Hgps.sumCounts (Hgps.runRecsAux 10 Hgps.initSt ([gpsC1a].take 0)).1 +
      (Hgps.stAt 10 [gpsC1a] 0).navg = ((0 : Nat) : Int)) ∧
    (Hsensor.sumCounts (Hsensor.runRecsAux 10 Hsensor.initSt [Hsensor.s0]).1 +
      (Hsensor.runRecsAux 10 Hsensor.initSt [Hsensor.s0]).2.navg =
        (([Hsensor.s0].length : Nat) : Int)) :=
  ⟨by decide,
   (((C3_theorem 10 (by decide)).1 [gpsC1a]
      (by intro r hr; rw [List.mem_singleton] at hr; subst hr; decide)).1 0 (by decide)).2.2,
   ((C3_theorem 10 (by decide)).2 [Hsensor.s0]
      (by intro r hr; rw [List.mem_singleton] at hr; subst hr; decide)).2.2.2⟩
